import Mathlib

/-!
Verification of the amz-listing-assistant generate/auth pipeline.

JavaScript strings are modelled as `List Char` (UTF-16 surrogate pairs do not
occur in the texts handled here, so a JS string is its sequence of code
points); the auth password comparison, which works on raw UTF-16 code units,
is modelled over `List Nat`.  Each definition mirrors one function of
`functions/api/generate.js` or `functions/api/auth.js` and keeps its name.
The OpenAI HTTP boundary is modelled by an oracle `Nat → CallRes` giving the
outcome of the n-th backend call; the only values the code extracts from a
successful response are the flattened output text and the web-search source
URLs, so a successful call is modelled as that pair.
-/

set_option maxRecDepth 10000

abbrev L := List Char

def str (s : String) : L := s.data

/-- Length of a character list, tail-recursively and with the accumulator
normalized at every step (same value as `List.length`; kept in this shape so
that concrete kernel evaluation stays shallow). -/
def lenLAux : L -> Nat -> Nat
  | [], n => n
  | _ :: t, n =>
    match n + 1 with
    | 0 => lenLAux t 0
    | m + 1 => lenLAux t (m + 1)

def lenL (s : L) : Nat := lenLAux s 0

/-- JS `\s` / `String.prototype.trim` whitespace set (WhiteSpace ∪ LineTerminator). -/
def isJsSpace (c : Char) : Bool :=
  let n := c.toNat
  n == 9 || n == 10 || n == 11 || n == 12 || n == 13 || n == 32 ||
  n == 0xA0 || n == 0x1680 || (0x2000 ≤ n && n ≤ 0x200A) ||
  n == 0x2028 || n == 0x2029 || n == 0x202F || n == 0x205F ||
  n == 0x3000 || n == 0xFEFF

/-- JS `\w` word characters, used for `\b` boundaries. -/
def isWordChar (c : Char) : Bool :=
  ('a' ≤ c && c ≤ 'z') || ('A' ≤ c && c ≤ 'Z') || ('0' ≤ c && c ≤ '9') || c == '_'

def isDigitCh (c : Char) : Bool := '0' ≤ c && c ≤ '9'

/-- JS `toLowerCase` restricted to the scripts that occur in this program:
ASCII, Latin-1 letters (the German umlauts in particular) and Cyrillic. -/
def lowerChar (c : Char) : Char :=
  let n := c.toNat
  if 65 ≤ n && n ≤ 90 then Char.ofNat (n + 32)
  else if 0xC0 ≤ n && n ≤ 0xDE && n ≠ 0xD7 then Char.ofNat (n + 32)
  else if 0x410 ≤ n && n ≤ 0x42F then Char.ofNat (n + 32)
  else if 0x400 ≤ n && n ≤ 0x40F then Char.ofNat (n + 80)
  else c

def lowerL (s : L) : L := s.map lowerChar

def trimStartJS (s : L) : L := s.dropWhile isJsSpace

def trimEndJS (s : L) : L := (s.reverse.dropWhile isJsSpace).reverse

/-- JS `String.prototype.trim`. -/
def trimJS (s : L) : L := trimEndJS (trimStartJS s)

/-- UTF-8 size of one code point. -/
def charBytes (c : Char) : Nat :=
  if c.toNat < 0x80 then 1
  else if c.toNat < 0x800 then 2
  else if c.toNat < 0x10000 then 3
  else 4

/-- `byteLen` of generate.js: UTF-8 byte length (`TextEncoder().encode(s).length`). -/
def byteLenAux : L -> Nat -> Nat
  | [], n => n
  | c :: t, n =>
    match n + charBytes c with
    | 0 => byteLenAux t 0
    | m + 1 => byteLenAux t (m + 1)

def byteLen (s : L) : Nat := byteLenAux s 0

/-- Decimal digits of a natural number, as characters (JS number interpolation). -/
def natToCharsAux : Nat → Nat → L
  | 0, _ => []
  | fuel + 1, n =>
    if n < 10 then [Char.ofNat (48 + n)]
    else natToCharsAux fuel (n / 10) ++ [Char.ofNat (48 + n % 10)]

def natToChars (n : Nat) : L := natToCharsAux (n + 1) n

/-- Split a list at every occurrence of `sep` (JS `String.prototype.split` with a
one-character separator). -/
def splitChAux (sep : Char) : L → L → List L
  | [], acc => [acc.reverse]
  | c :: rest, acc =>
    if c = sep then acc.reverse :: splitChAux sep rest []
    else splitChAux sep rest (c :: acc)

def splitCh (sep : Char) (s : L) : List L := splitChAux sep s []

def joinWith (sep : L) : List L → L
  | [] => []
  | [x] => x
  | x :: xs => x ++ sep ++ joinWith sep xs

def splitLines (s : L) : List L := splitCh '\n' s

def joinLines (ls : List L) : L := joinWith ['\n'] ls

/-- First index (if any) where sublist `pat` occurs in `s` (JS `String.prototype.indexOf`). -/
def indexOfSubAux (pat : L) : L → Nat → Option Nat
  | [], i => if pat = [] then some i else none
  | s@(_ :: rest), i =>
    if pat.isPrefixOf s then some i
    else match i + 1 with
         | 0 => indexOfSubAux pat rest 0
         | m + 1 => indexOfSubAux pat rest (m + 1)

def indexOfSub (s pat : L) : Option Nat := indexOfSubAux pat s 0

/-- JS `String.prototype.includes`. -/
def includesSub (s pat : L) : Bool := (indexOfSub s pat).isSome

/-- Index of the first occurrence of `c` at or after position `i`
(JS `String.prototype.indexOf(c, i)`). -/
def indexOfChFrom (s : L) (c : Char) (i : Nat) : Option Nat :=
  indexOfSubAux [c] (s.drop i) i

/-!
## Regex atoms

Every regex in generate.js that is used for section scanning is a sequence of
literal characters (case-insensitive under the `i` flag), character classes,
`\s*` / `\s+` runs and (for the VARIANT marker) a trailing `\b`.  In all of
them a whitespace run is followed by a non-whitespace atom, so the greedy
match never backtracks and the following direct-style matcher is exact.
-/

inductive Atom where
  | lit (c : Char)
  | litCI (c : Char)
  | anyOf (cs : List Char)
  | ws0
  | ws1
  | notWordNext
  deriving DecidableEq

/-- Match the atom sequence at the start of `s`; `some rest` returns the
unconsumed remainder. -/
def pmatchA : List Atom → L → Option L
  | [], s => some s
  | .lit c :: ps, d :: s => if d = c then pmatchA ps s else none
  | .lit _ :: _, [] => none
  | .litCI c :: ps, d :: s => if lowerChar d = c then pmatchA ps s else none
  | .litCI _ :: _, [] => none
  | .anyOf cs :: ps, d :: s => if cs.contains d then pmatchA ps s else none
  | .anyOf _ :: _, [] => none
  | .ws0 :: ps, s => pmatchA ps (s.dropWhile isJsSpace)
  | .ws1 :: ps, d :: s =>
    if isJsSpace d then pmatchA ps ((d :: s).dropWhile isJsSpace) else none
  | .ws1 :: _, [] => none
  | .notWordNext :: ps, [] => pmatchA ps []
  | .notWordNext :: ps, d :: s => if isWordChar d then none else pmatchA ps (d :: s)

def pmatchB (pat : List Atom) (s : L) : Bool := (pmatchA pat s).isSome

/-- Length consumed by a successful match. -/
def pmatchLen (pat : List Atom) (s : L) : Option Nat :=
  (pmatchA pat s).map (fun rest => lenL s - lenL rest)

/-- Position of the first match of `pat` in `s` (JS `RegExp.exec(...).index`). -/
def firstMatchPosAux (pat : List Atom) : L → Nat → Option Nat
  | [], i => if pmatchB pat [] then some i else none
  | s@(_ :: rest), i =>
    if pmatchB pat s then some i
    else match i + 1 with
         | 0 => firstMatchPosAux pat rest 0
         | m + 1 => firstMatchPosAux pat rest (m + 1)

def firstMatchPos (pat : List Atom) (s : L) : Option Nat := firstMatchPosAux pat s 0

/-- `findRegexIndex` of generate.js (-1 becomes `none`). -/
def findRegexIndex (s : L) (pat : List Atom) : Option Nat := firstMatchPos pat s

def testRe (pat : List Atom) (s : L) : Bool := (firstMatchPos pat s).isSome

def ciStr (s : String) : List Atom := s.data.map (fun c => Atom.litCI (lowerChar c))

def exStr (s : String) : List Atom := s.data.map Atom.lit

/-! Marker patterns, one per regex literal of generate.js. -/

/-- `/ФАЗА\s*1/i` -/
def patPhase1 : List Atom := ciStr "ФАЗА" ++ [.ws0, .lit '1']

/-- `/ФАЗА\s*2/i` -/
def patPhase2word : List Atom := ciStr "ФАЗА" ++ [.ws0, .lit '2']

/-- `/ФАЗА\s*2\s*[·:\-–]\s*ЛИСТИНГ/i` -/
def patPhase2full : List Atom :=
  ciStr "ФАЗА" ++ [.ws0, .lit '2', .ws0, .anyOf ['·', ':', '-', '–'], .ws0] ++ ciStr "ЛИСТИНГ"

/-- `/VARIANT\s+[ABC]/i` (no word boundaries; used by `rebuildPhase2` and `sanitize`). -/
def patVariantLoose : List Atom := ciStr "VARIANT" ++ [.ws1, .anyOf ['A', 'B', 'C', 'a', 'b', 'c']]

/-- Tail of `/\bVARIANT\s+[ABC]\b/gi` after the leading boundary. -/
def patVariantTail : List Atom :=
  ciStr "VARIANT" ++ [.ws1, .anyOf ['A', 'B', 'C', 'a', 'b', 'c'], .notWordNext]

/-- `/Titles\s*\(2/i` -/
def patTitles2 : List Atom := ciStr "Titles" ++ [.ws0, .lit '(', .lit '2']

/-- `/Bullet\s*Points/i` -/
def patBulletPoints : List Atom := ciStr "Bullet" ++ [.ws0] ++ ciStr "Points"

/-- `/Bullet\s*Points\s*\(5\)\s*:/i` -/
def patBulletPoints5 : List Atom :=
  ciStr "Bullet" ++ [.ws0] ++ ciStr "Points" ++ [.ws0, .lit '(', .lit '5', .lit ')', .ws0, .lit ':']

/-- `/Product\s*Description/i` -/
def patProdDesc : List Atom := ciStr "Product" ++ [.ws0] ++ ciStr "Description"

/-- `/Backend\s*[—-]/i` -/
def patBackendDash : List Atom := ciStr "Backend" ++ [.ws0, .anyOf ['—', '-']]

/-- `/Backend/i` -/
def patBackendWord : List Atom := ciStr "Backend"

/-- `/Active\s*Ingredients/i` -/
def patActiveIngredients : List Atom := ciStr "Active" ++ [.ws0] ++ ciStr "Ingredients"

/-- `/Compliance\s*note/i` -/
def patComplianceNote : List Atom := ciStr "Compliance" ++ [.ws0] ++ ciStr "note"

/-- `/•\s*Special\s*Features/i` -/
def patSpecialFeatures : List Atom :=
  [.lit '•', .ws0] ++ ciStr "Special" ++ [.ws0] ++ ciStr "Features"

/-- `/^\(Bytes:/i` -/
def patBytesOpen : List Atom := [.lit '('] ++ ciStr "Bytes" ++ [.lit ':']

/-- `/•\s*Източници\s*:/i` -/
def patSources : List Atom := [.lit '•', .ws0] ++ ciStr "Източници" ++ [.ws0, .lit ':']

/-- `/•\s*Диференциатори/i` -/
def patDifferentiators : List Atom := [.lit '•', .ws0] ++ ciStr "Диференциатори"

/-- `/Backend\s*[—-]\s*Generic\s*Keywords/i`, the fixed head of the two
counter-rewrite patterns. -/
def patBackendGeneric : List Atom :=
  ciStr "Backend" ++ [.ws0, .anyOf ['—', '-'], .ws0] ++ ciStr "Generic" ++ [.ws0] ++ ciStr "Keywords"

/-! ## Text / policy helpers of generate.js -/

/-- Maximal non-whitespace chunks of `s`; equals JS `s.split(/\s+/).filter(Boolean)`. -/
def wordsOfAux : L → L → List L
  | [], acc => if acc = [] then [] else [acc.reverse]
  | c :: rest, acc =>
    if isJsSpace c then
      if acc = [] then wordsOfAux rest [] else acc.reverse :: wordsOfAux rest []
    else wordsOfAux rest (c :: acc)

def wordsOf (s : L) : List L := wordsOfAux s []

/-- `collapseSpaces`: `.replace(/\s+/g, " ").trim()`; each maximal whitespace run
becomes one space and the ends are trimmed, i.e. the single-space join of the words. -/
def collapseSpaces (s : L) : L := joinWith [' '] (wordsOf s)

/-- `normalizeOneLine` has the same body as `collapseSpaces` in the source. -/
def normalizeOneLine (s : L) : L := collapseSpaces s

def dropRevCI : List Char → L → Option L
  | [], s => some s
  | p :: ps, d :: s => if lowerChar d = p then dropRevCI ps s else none
  | _ :: _, [] => none

/-- The trailing `/\s*\(Chars:\s*\d+\s*\)\s*$/i` match of `stripCounterSuffix`,
parsed from the right; `some` returns the text before the match. -/
def stripTrailingCounter (s : L) : Option L :=
  let r := s.reverse.dropWhile isJsSpace
  match r with
  | ')' :: r2 =>
    let r3 := r2.dropWhile isJsSpace
    let ds := r3.takeWhile isDigitCh
    if ds = [] then none
    else
      let r4 := (r3.dropWhile isDigitCh).dropWhile isJsSpace
      match dropRevCI ":srahc(".data r4 with
      | some r5 => some ((r5.dropWhile isJsSpace).reverse)
      | none => none
  | _ => none

/-- `stripCounterSuffix`: remove a trailing `(Chars: N)` annotation, then trim. -/
def stripCounterSuffix (s : L) : L :=
  trimJS (match stripTrailingCounter s with | some p => p | none => s)

/-- `startsWithBrand`. -/
def startsWithBrand (title brand : L) : Bool :=
  let t := lowerL (trimJS title)
  let b := lowerL (trimJS brand)
  if b = [] then true else b.isPrefixOf t

/-- `includesBrand`: case-insensitive substring test (empty brand never matches). -/
def includesBrand (s brand : L) : Bool :=
  let t := lowerL s
  let b := lowerL brand
  if b = [] then false else includesSub t b

/-- `removeBrandFromBackend`: drop every whitespace-delimited token equal to the
brand (case-insensitive), then collapse spaces. -/
def removeBrandFromBackend (backend brand : L) : L :=
  let b := trimJS brand
  if b = [] then collapseSpaces backend
  else
    let bLower := lowerL b
    collapseSpaces (joinWith [' '] ((wordsOf backend).filter (fun tok => lowerL tok ≠ bLower)))

/-- `containsCyrillic`: `/[Ѐ-ӿ]/`. -/
def containsCyrillic (s : L) : Bool :=
  s.any (fun c => 0x400 ≤ c.toNat && c.toNat ≤ 0x4FF)

/-- `containsEmoji`: `/[\u{1F300}-\u{1FAFF}\u{2600}-\u{26FF}]/u`. -/
def containsEmoji (s : L) : Bool :=
  s.any (fun c => (0x1F300 ≤ c.toNat && c.toNat ≤ 0x1FAFF) || (0x2600 ≤ c.toNat && c.toNat ≤ 0x26FF))

def isGermanLetter (c : Char) : Bool :=
  ('A' ≤ c && c ≤ 'Z') || ('a' ≤ c && c ≤ 'z') || c == 'Ä' || c == 'Ö' || c == 'Ü' || c == 'ß'

def isGermanLower (c : Char) : Bool :=
  ('a' ≤ c && c ≤ 'z') || c == 'ä' || c == 'ö' || c == 'ü' || c == 'ß'

/-- `isAllCaps`: has a letter and no lowercase letter. -/
def isAllCaps (s : L) : Bool :=
  let t := trimJS s
  if t = [] then false else t.any isGermanLetter && !(t.any isGermanLower)

def repWordChar (c : Char) : Bool :=
  ('a' ≤ c && c ≤ 'z') || ('0' ≤ c && c ≤ '9') ||
  c == 'ä' || c == 'ö' || c == 'ü' || c == 'ß' || c == '-'

/-- `maxWordRepetition`: lowercase, keep `[a-z0-9äöüß\s-]`, collapse, then the
largest multiplicity among words of length ≥ 2. -/
def maxWordRepetition (title : L) : Nat :=
  let t := collapseSpaces ((lowerL title).map (fun c =>
    if repWordChar c || isJsSpace c then c else ' '))
  if t = [] then 0
  else
    let ws := (wordsOf t).filter (fun w => 2 ≤ w.length)
    (ws.map (fun w => ws.count w)).foldl max 0

def umlautMap (c : Char) : L :=
  if c = 'Ä' then str "Ae" else if c = 'Ö' then str "Oe" else if c = 'Ü' then str "Ue"
  else if c = 'ä' then str "ae" else if c = 'ö' then str "oe" else if c = 'ü' then str "ue"
  else if c = 'ß' then str "ss" else [c]

def isBackendPunct (c : Char) : Bool :=
  c == ',' || c == '.' || c == ';' || c == ':' || c == '|' || c == '/' || c == '\\'

/-- `asciiNormalizeBackend`: umlaut digraphs, remaining non-ASCII to spaces,
separator punctuation to spaces, collapse.  (The source replaces punctuation
runs by one space; per-character replacement gives the same result after
`collapseSpaces`.) -/
def asciiNormalizeBackend (s : L) : L :=
  let x1 := (s.map umlautMap).flatten
  let x2 := x1.map (fun c => if c.toNat ≤ 0x7F then c else ' ')
  let x3 := x2.map (fun c => if isBackendPunct c then ' ' else c)
  collapseSpaces x3

def hardTrimAux (maxBytes : Nat) : List L → List L → List L
  | out, [] => out
  | out, tok :: toks =>
    let candidate := if out = [] then tok else joinWith [' '] out ++ ' ' :: tok
    if byteLen candidate ≤ maxBytes then hardTrimAux maxBytes (out ++ [tok]) toks else out

/-- `hardTrimBackendToBytes`: greedily keep leading whitespace-delimited
tokens while the joined line fits in `maxBytes` UTF-8 bytes. -/
def hardTrimBackendToBytes (backend : L) (maxBytes : Nat) : L :=
  let toks := (splitCh ' ' (collapseSpaces backend)).filter (· ≠ [])
  joinWith [' '] (hardTrimAux maxBytes [] toks)

/-! ## Phase / variant / section parsing -/

structure VB where
  label : L
  text : L
  deriving DecidableEq, Repr

/-- `extractPhase2`: from the first `ФАЗА 2 · ЛИСТИНГ` marker to the end, trimmed. -/
def extractPhase2 (text : L) : L :=
  match firstMatchPos patPhase2full text with
  | none => []
  | some i => trimJS (text.drop i)

/-- `extractPhase2Header`. -/
def extractPhase2Header (phase2 : L) : L :=
  let firstLine := trimJS ((splitLines phase2).headD [])
  if testRe patPhase2word firstLine then firstLine else []

/-- All start positions of `\bVARIANT\s+[ABC]\b` matches.  This pattern cannot
overlap itself, so scanning every position equals the JS `/g` loop. -/
def findVariantMarksAux : L → Nat → Option Char → List Nat
  | [], _, _ => []
  | s@(c :: rest), i, prev =>
    let boundaryOk := match prev with | none => true | some p => !isWordChar p
    let here := if boundaryOk && pmatchB patVariantTail s then [i] else []
    here ++ match i + 1 with
            | 0 => findVariantMarksAux rest 0 (some c)
            | m + 1 => findVariantMarksAux rest (m + 1) (some c)

def findVariantMarks (s : L) : List Nat := findVariantMarksAux s 0 none

def variantChunks (rest : L) : List Nat → List VB
  | [] => []
  | i :: is =>
    let e := match is with | j :: _ => j | [] => lenL rest
    let chunk := trimJS ((rest.take e).drop i)
    let firstLine := trimJS ((splitLines chunk).headD [])
    ⟨firstLine, trimJS (chunk.drop (lenL firstLine))⟩ :: variantChunks rest is

/-- `splitVariantsPhase2`. -/
def splitVariantsPhase2 (phase2Text : L) (variantsExpected : Nat) : List VB :=
  let s := trimJS phase2Text
  let lines := splitLines s
  let rest := trimJS (joinLines (lines.drop 1))
  let marks := findVariantMarks rest
  if marks = [] then [⟨[], rest⟩]
  else
    let out := variantChunks rest marks
    if variantsExpected = 1 && out.length > 1 then [out.headD ⟨[], []⟩] else out

/-- `rebuildPhase2`. -/
def rebuildPhase2 (fullText : L) (variantBlocks : List VB) : L :=
  let s := fullText
  let phase2 := extractPhase2 s
  if phase2 = [] then s
  else
    let cut := match indexOfSub s phase2 with
      | some k => s.take k
      | none => s.dropLast
    let before := trimEndJS cut
    let header := let h := extractPhase2Header phase2
                  if h ≠ [] then h else str "ФАЗА 2 · ЛИСТИНГ"
    let hadVariants := testRe patVariantLoose phase2
    let rebuilt :=
      if hadVariants then
        trimJS (joinLines (header :: variantBlocks.flatMap (fun v => [v.label, v.text].filter (· ≠ []))))
      else
        trimJS (joinLines [header, (variantBlocks.headD ⟨[], []⟩).text])
    trimJS (before ++ '\n' :: rebuilt)

/-- `extractSection` (result trimmed; missing start marker gives `""`). -/
def extractSection (text : L) (startPat endPat : List Atom) : L :=
  match findRegexIndex text startPat with
  | none => []
  | some start =>
    let tail := text.drop start
    match findRegexIndex tail endPat with
    | none => trimJS tail
    | some e => trimJS (tail.take e)

/-- `extractSectionAround` (no trimming). -/
def extractSectionAround (full : L) (startPat endPat : List Atom) : L :=
  match findRegexIndex full startPat with
  | none => []
  | some start =>
    let tail := full.drop start
    match findRegexIndex tail endPat with
    | none => tail
    | some e => tail.take e

/-- The `extractSection(block, /Backend\s*[—-]/i, ...) || ... || ...` fallback
chain that appears four times in the source. -/
def backendSectionOf (block : L) : L :=
  let r1 := extractSection block patBackendDash patActiveIngredients
  if r1 ≠ [] then r1
  else
    let r2 := extractSection block patBackendDash patComplianceNote
    if r2 ≠ [] then r2 else extractSection block patBackendDash patSpecialFeatures

/-- Same chain with `extractSectionAround` (used by `refreshCounters`). -/
def backendSectionAround (full : L) : L :=
  let r1 := extractSectionAround full patBackendDash patActiveIngredients
  if r1 ≠ [] then r1
  else
    let r2 := extractSectionAround full patBackendDash patComplianceNote
    if r2 ≠ [] then r2 else extractSectionAround full patBackendDash patSpecialFeatures

def startsNumDot (n : Char) (l : L) : Bool :=
  match l with
  | c :: '.' :: _ => c = n
  | _ => false

def stripLeadNumDot (l : L) : L :=
  match l with
  | _ :: '.' :: r => trimJS (r.dropWhile isJsSpace)
  | _ => trimJS l

/-- `parseTwoTitlesFromTitlesBlock`. -/
def parseTwoTitlesFromTitlesBlock (titlesBlock : L) : List L :=
  let lines := ((splitLines titlesBlock).map trimJS).filter (· ≠ [])
  let t1 := (lines.find? (startsNumDot '1')).getD []
  let t2 := (lines.find? (startsNumDot '2')).getD []
  (if t1 ≠ [] then [stripLeadNumDot t1] else []) ++ (if t2 ≠ [] then [stripLeadNumDot t2] else [])

/-- `parseBulletsFromBulletsBlock`. -/
def parseBulletsFromBulletsBlock (bulletsBlock : L) : List L :=
  let lines := ((splitLines bulletsBlock).map trimJS).filter (· ≠ [])
  (lines.filter (fun l => l.headD ' ' = '•')).take 5

/-- `stripDescriptionHeading`: drop the first line when it mentions
`Product Description`, then trim. -/
def stripDescriptionHeading (descBlock : L) : L :=
  match splitLines descBlock with
  | [] => []
  | l0 :: rest => trimJS (joinLines (if testRe patProdDesc l0 then rest else l0 :: rest))

def parseBackendLineLoop : List L → L
  | [] => []
  | l :: ls =>
    if l = [] then parseBackendLineLoop ls
    else if pmatchB patBackendDash l then parseBackendLineLoop ls
    else if pmatchB patBytesOpen l then parseBackendLineLoop ls
    else if l.getLast? = some ':' && pmatchB patBackendWord l then parseBackendLineLoop ls
    else l

/-- `parseBackendLine`: first trimmed line of the backend section that is not
the heading or a stray `(Bytes:` line. -/
def parseBackendLine (backendBlock : L) : L :=
  parseBackendLineLoop ((splitLines backendBlock).map trimJS)

/-! ## Replacers -/

/-- Generic first-match search returning position and length, for the two
section-replacement header regexes that need match lengths. -/
def findWithLen (m : L → Option L) : L → Nat → Option (Nat × Nat)
  | [], i => (m []).map (fun rest => (i, 0 - lenL rest))
  | s@(_ :: tail), i =>
    match m s with
    | some rest => some (i, lenL s - lenL rest)
    | none => match i + 1 with
              | 0 => findWithLen m tail 0
              | j + 1 => findWithLen m tail (j + 1)

/-- Lazy `[^]*?\)\s*:\s*` tail of the titles-header regex of `fixTitlesAllVariants`. -/
def lazyParenColon : L → Option L
  | [] => none
  | c :: rest =>
    if c = ')' then
      match rest.dropWhile isJsSpace with
      | ':' :: r2 => some (r2.dropWhile isJsSpace)
      | _ => lazyParenColon rest
    else lazyParenColon rest

/-- Matcher of `/Titles\s*\(2[^]*?\)\s*:\s*/i`. -/
def titlesHeaderMatch (s : L) : Option L := (pmatchA patTitles2 s).bind lazyParenColon

/-- Matcher of `/Bullet\s*Points\s*\(5\)\s*:\s*/i`. -/
def bulletsHeaderMatch (s : L) : Option L :=
  (pmatchA patBulletPoints5 s).map (·.dropWhile isJsSpace)

/-- `replaceSection`: swap the span from the start-header match to the
end-header match for `replacement`. -/
def replaceSection (s : L) (startFind : L → Option L) (endPat : List Atom)
    (replacement : L) : L :=
  match findWithLen startFind s 0 with
  | none => s
  | some (idx, len) =>
    let tail := s.drop (idx + len)
    match findRegexIndex tail endPat with
    | none => s.take idx ++ replacement
    | some e => trimJS (s.take idx ++ replacement ++ tail.drop e)

/-- `replaceDescriptionInBlock`. -/
def replaceDescriptionInBlock (block newDesc : L) : L :=
  let s := block
  match findRegexIndex s patProdDesc, findRegexIndex s patBackendWord with
  | some startIdx, some endIdx =>
    if endIdx ≤ startIdx then s
    else
      let before := s.take startIdx
      let after := s.drop endIdx
      let descHeaderLine :=
        match indexOfChFrom s '\n' startIdx with
        | some fl => trimJS ((s.take fl).drop startIdx)
        | none => str "Product Description (Chars: 0)"
      trimJS (trimEndJS before ++ '\n' :: descHeaderLine ++ '\n' :: trimJS newDesc
        ++ '\n' :: '\n' :: trimStartJS after)
  | _, _ => s

def replaceBackendLoop (newL : L) : List L → Option (List L)
  | [] => none
  | l :: ls =>
    let t := trimJS l
    if t = [] then (replaceBackendLoop newL ls).map (l :: ·)
    else if pmatchB patActiveIngredients t then none
    else if pmatchB patComplianceNote t then none
    else if pmatchB patSpecialFeatures t then none
    else some (trimJS newL :: ls)

def findBackendHeaderIdx : List L → Option Nat
  | [] => none
  | l :: ls =>
    if testRe patBackendDash l then some 0
    else (findBackendHeaderIdx ls).map (· + 1)

/-- `replaceBackendLineInBlock`: replace the first non-empty non-heading line
after the backend header, or insert one right after the header. -/
def replaceBackendLineInBlock (block newBackendLine : L) : L :=
  match findRegexIndex block patBackendDash with
  | none => block
  | some _ =>
    let lines := splitLines block
    match findBackendHeaderIdx lines with
    | none => block
    | some hi =>
      let pre := lines.take (hi + 1)
      let post := lines.drop (hi + 1)
      match replaceBackendLoop newBackendLine post with
      | some post' => joinLines (pre ++ post')
      | none => joinLines (pre ++ trimJS newBackendLine :: post)

/-! ## URL rules -/

/-- One match of `/https?:\/\/[^\s\]]+/gi` at the start of `s`:
returns the matched URL and the rest. -/
def urlMatchAt (s : L) : Option (L × L) :=
  match pmatchA (ciStr "http") s with
  | none => none
  | some r1 =>
    let r1' := match r1 with
      | c :: t => if lowerChar c = 's' then t else r1
      | [] => r1
    match pmatchA (exStr "://") r1' with
    | none => none
    | some r2 =>
      let body := r2.takeWhile (fun c => !isJsSpace c && c ≠ ']')
      if body = [] then none
      else
        let rest := r2.drop (lenL body)
        some (s.take (lenL s - lenL rest), rest)

/-- All (non-overlapping, leftmost) URL matches, as in `matchAll`. -/
def findUrlsAux : Nat → L → List L
  | 0, _ => []
  | _, [] => []
  | fuel + 1, s@(_ :: t) =>
    match urlMatchAt s with
    | some (m, rest) => m :: findUrlsAux fuel rest
    | none => findUrlsAux fuel t

def findAllUrls (s : L) : List L := findUrlsAux (lenL s) s

/-- `findUrlsOutsidePhase1Sources`. -/
def findUrlsOutsidePhase1Sources (s : L) : List L :=
  let urls := findAllUrls s
  if urls = [] then []
  else
    let allowed := (splitLines s).flatMap
      (fun line => if testRe patSources line then findAllUrls line else [])
    urls.filter (fun u => !allowed.contains u)

/-- Matcher of `/•\s*Източници\s*:\s*\[.+?\]/i` at the start of `s`. -/
def sourcesLineMatchAt (s : L) : Bool :=
  match pmatchA patSources s with
  | none => false
  | some r1 =>
    match r1.dropWhile isJsSpace with
    | '[' :: r2 => ((r2.takeWhile (· ≠ '\n')).drop 1).contains ']'
    | _ => false

def anyPos (m : L → Bool) : L → Bool
  | [] => m []
  | s@(_ :: t) => m s || anyPos m t

/-- `/^https?:\/\//i` -/
def isHttpUrl (u : L) : Bool :=
  pmatchB (ciStr "http" ++ exStr "://") u || pmatchB (ciStr "https" ++ exStr "://") u

def insertAfterDifferentiators (sourcesLine : L) : List L → Bool → List L
  | [], inserted => if inserted then [] else []
  | l :: ls, inserted =>
    if !inserted && testRe patDifferentiators l then
      l :: sourcesLine :: insertAfterDifferentiators sourcesLine ls true
    else l :: insertAfterDifferentiators sourcesLine ls inserted

def containsDifferentiatorsLine (ls : List L) : Bool :=
  ls.any (testRe patDifferentiators)

/-- `ensurePhase1Sources`. -/
def ensurePhase1Sources (text : L) (urls : List L) : L :=
  let s := trimJS text
  if s = [] then s
  else if anyPos sourcesLineMatchAt s then s
  else
    let insertUrls := ((urls.map trimJS).filter isHttpUrl).take 15
    let insertUrls := if insertUrls = [] then [str "https://www.amazon.de/"] else insertUrls
    let sourcesLine := str "• Източници: " ++
      joinWith [' '] (insertUrls.map (fun u => '[' :: u ++ [']']))
    if testRe patPhase1 s then
      let lines := splitLines s
      let out := insertAfterDifferentiators sourcesLine lines false
      let out := if containsDifferentiatorsLine lines then out else sourcesLine :: out
      trimJS (joinLines out)
    else trimJS (sourcesLine ++ '\n' :: '\n' :: s)

/-! ## Bullet format matchers -/

/-- Consume `•\s*\*\*` (shared head of the two bullet regexes). -/
def bulletAfterStars (s : L) : Option L :=
  match s with
  | '•' :: r =>
    match r.dropWhile isJsSpace with
    | '*' :: '*' :: r2 => some r2
    | _ => none
  | _ => none

/-- Scan for `.+\*\*:\s` (existence; `.` excludes newline). -/
def bulletFmtScan : L → Bool → Bool
  | [], _ => false
  | c :: rest, hasMid =>
    (c = '*' && hasMid &&
      (match rest with | '*' :: ':' :: d :: _ => isJsSpace d | _ => false))
    || (c ≠ '\n' && bulletFmtScan rest true)

/-- `/^•\s*\*\*.+\*\*:\s+/` test. -/
def bulletFormatOk (bNorm : L) : Bool :=
  match bulletAfterStars bNorm with
  | some r2 => bulletFmtScan r2 false
  | none => false

/-- Lazy group of `/^•\s*\*\*(.+?)\*\*:/`. -/
def bulletLabelScan : L → L → Option L
  | [], _ => none
  | c :: rest, acc =>
    if c = '*' && acc ≠ [] && (match rest with | '*' :: ':' :: _ => true | _ => false)
    then some acc.reverse
    else if c = '\n' then none
    else bulletLabelScan rest (c :: acc)

def bulletLabel (bNorm : L) : L :=
  match bulletAfterStars bNorm with
  | some r2 => (bulletLabelScan r2 []).getD []
  | none => []

/-! ## Validation -/

structure Cfg where
  TITLE_MIN : Nat
  TITLE_MAX : Nat
  TITLE_HARD_MAX : Nat
  BULLET_COUNT : Nat
  BULLET_MIN : Nat
  BULLET_MAX : Nat
  DESC_MIN : Nat
  DESC_MAX : Nat
  BACKEND_MAX_BYTES : Nat

/-- The hard-limit configuration of `onRequestPost`. -/
def CFG : Cfg := ⟨180, 195, 200, 5, 220, 240, 3300, 3700, 250⟩

def titleItemErrors (label : L) (cfg : Cfg) (brand : L) (idx : Nat) (t : L) : List L :=
  let titleText := stripCounterSuffix t
  let len := lenL titleText
  (if len < cfg.TITLE_MIN || len > cfg.TITLE_MAX || len > cfg.TITLE_HARD_MAX then
    [label ++ str ": title " ++ natToChars idx ++ str " length = " ++ natToChars len ++
     str ", expected " ++ natToChars cfg.TITLE_MIN ++ ['-'] ++ natToChars cfg.TITLE_MAX ++
     str " (hard ≤" ++ natToChars cfg.TITLE_HARD_MAX ++ [')']]
   else []) ++
  (if !startsWithBrand titleText brand then
    [label ++ str ": title " ++ natToChars idx ++ str " does not start with brand name."]
   else []) ++
  (if containsCyrillic titleText then
    [label ++ str ": title " ++ natToChars idx ++ str " contains Cyrillic (not allowed)."]
   else []) ++
  (if containsEmoji titleText then
    [label ++ str ": title " ++ natToChars idx ++ str " contains emoji (not allowed)."]
   else []) ++
  (let rep := maxWordRepetition titleText
   if rep > 2 then
    [label ++ str ": title " ++ natToChars idx ++ str " repeats a word " ++ natToChars rep ++
     str " times (>2)."]
   else [])

def titlesSectionErrors (label : L) (cfg : Cfg) (brand : L) (titlesBlock : L) : List L :=
  let titles := parseTwoTitlesFromTitlesBlock titlesBlock
  if titles.length ≠ 2 then
    [label ++ str ": titles found = " ++ natToChars titles.length ++ str ", expected 2"]
  else titles.enum.flatMap (fun it => titleItemErrors label cfg brand (it.1 + 1) it.2)

def bulletItemErrors (label : L) (cfg : Cfg) (idx : Nat) (b : L) : List L :=
  let bNorm := normalizeOneLine b
  let len := lenL bNorm
  (if len < cfg.BULLET_MIN || len > cfg.BULLET_MAX then
    [label ++ str ": bullet " ++ natToChars idx ++ str " length = " ++ natToChars len ++
     str ", expected " ++ natToChars cfg.BULLET_MIN ++ ['-'] ++ natToChars cfg.BULLET_MAX]
   else []) ++
  (if !bulletFormatOk bNorm then
    [label ++ str ": bullet " ++ natToChars idx ++ str " format must start with \"• **Label**: \""]
   else []) ++
  (let labelText := bulletLabel bNorm
   if labelText ≠ [] && isAllCaps labelText then
    [label ++ str ": bullet " ++ natToChars idx ++ str " label is ALL CAPS (not allowed)."]
   else []) ++
  (if containsCyrillic bNorm then
    [label ++ str ": bullet " ++ natToChars idx ++ str " contains Cyrillic (not allowed)."]
   else []) ++
  (if containsEmoji bNorm then
    [label ++ str ": bullet " ++ natToChars idx ++ str " contains emoji (not allowed)."]
   else [])

def bulletsSectionErrors (label : L) (cfg : Cfg) (bulletsBlock : L) : List L :=
  let bullets := parseBulletsFromBulletsBlock bulletsBlock
  if bullets.length ≠ cfg.BULLET_COUNT then
    [label ++ str ": bullets count = " ++ natToChars bullets.length ++ str ", expected " ++
     natToChars cfg.BULLET_COUNT]
  else bullets.enum.flatMap (fun it => bulletItemErrors label cfg (it.1 + 1) it.2)

def descSectionErrors (label : L) (cfg : Cfg) (descBlock : L) : List L :=
  let descText := stripDescriptionHeading descBlock
  let descLen := lenL descText
  (if descLen < cfg.DESC_MIN || descLen > cfg.DESC_MAX then
    [label ++ str ": description length = " ++ natToChars descLen ++ str ", expected " ++
     natToChars cfg.DESC_MIN ++ ['-'] ++ natToChars cfg.DESC_MAX]
   else []) ++
  (if containsCyrillic descText then
    [label ++ str ": description contains Cyrillic (not allowed)."] else []) ++
  (if containsEmoji descText then
    [label ++ str ": description contains emoji (not allowed)."] else [])

def backendSectionErrors (label : L) (cfg : Cfg) (brand : L) (backendBlock : L) : List L :=
  let backendLine := parseBackendLine backendBlock
  let backendAscii := asciiNormalizeBackend backendLine
  let bytes := byteLen backendAscii
  (if bytes > cfg.BACKEND_MAX_BYTES then
    [label ++ str ": backend bytes = " ++ natToChars bytes ++ str ", expected ≤ " ++
     natToChars cfg.BACKEND_MAX_BYTES]
   else []) ++
  (if backendAscii ≠ backendLine && backendLine.any (fun c => 0x7F < c.toNat) then
    [label ++ str ": backend contains non-ASCII (must be ASCII only)."] else []) ++
  (if containsCyrillic backendLine then
    [label ++ str ": backend contains Cyrillic (not allowed)."] else []) ++
  (if containsEmoji backendLine then
    [label ++ str ": backend contains emoji (not allowed)."] else []) ++
  (if includesBrand backendLine brand then
    [label ++ str ": backend contains brand name (not allowed)."] else []) ++
  (if backendLine.contains ',' || backendLine.contains ';' then
    [label ++ str ": backend must be space-separated only (no commas/semicolons)."] else []) ++
  (if (splitLines backendLine).length > 1 then
    [label ++ str ": backend must be one line only."] else [])

def titlesBlockOf (block : L) : L := extractSection block patTitles2 patBulletPoints

def bulletsBlockOf (block : L) : L := extractSection block patBulletPoints5 patProdDesc

def descBlockOf (block : L) : L := extractSection block patProdDesc patBackendWord

/-- Per-variant-block validation (loop body of `validateOutput`). -/
def blockErrors (cfg : Cfg) (brand : L) (vb : VB) : List L :=
  let label := if vb.label ≠ [] then vb.label else str "OUTPUT"
  let block := vb.text
  let titlesBlock := titlesBlockOf block
  let bulletsBlock := bulletsBlockOf block
  let descBlock := descBlockOf block
  let backendBlock := backendSectionOf block
  (if titlesBlock = [] then [label ++ str ": Missing Titles section."] else []) ++
  (if bulletsBlock = [] then [label ++ str ": Missing Bullet Points section."] else []) ++
  (if descBlock = [] then [label ++ str ": Missing Product Description section."] else []) ++
  (if backendBlock = [] then [label ++ str ": Missing Backend section."] else []) ++
  titlesSectionErrors label cfg brand titlesBlock ++
  bulletsSectionErrors label cfg bulletsBlock ++
  descSectionErrors label cfg descBlock ++
  backendSectionErrors label cfg brand backendBlock

structure VRes where
  ok : Bool
  errors : List L
  deriving Repr

/-- `validateOutput`. -/
def validateOutput (text brand : L) (cfg : Cfg) (variants : Nat) : VRes :=
  let s := trimJS text
  if s = [] then ⟨false, [str "Empty output"]⟩
  else
    let preErrors :=
      (if !(testRe patPhase1 s && testRe patPhase2word s) then
        [str "Missing Phase 1 and/or Phase 2 headings (ФАЗА 1 / ФАЗА 2)."] else []) ++
      (let uv := findUrlsOutsidePhase1Sources s
       if uv ≠ [] then
        [str "URLs found outside Phase 1 Sources line: " ++ joinWith (str ", ") (uv.take 5) ++
         (if uv.length > 5 then str "..." else [])]
       else [])
    let phase2 := extractPhase2 s
    if phase2 = [] then
      let errors := preErrors ++ [str "Cannot find Phase 2 block."]
      ⟨errors.isEmpty, errors⟩
    else
      let vBlocks := splitVariantsPhase2 phase2 variants
      let errors := preErrors ++ vBlocks.flatMap (blockErrors cfg brand)
      ⟨errors.isEmpty, errors⟩

structure Flags where
  titles : Bool
  bullets : Bool
  description : Bool
  backend : Bool
  urls : Bool
  format : Bool

/-- `classifyErrors`. -/
def classifyErrors (errors : List L) : Flags :=
  let e := lowerL (joinLines errors)
  ⟨includesSub e (str "title"), includesSub e (str "bullet"), includesSub e (str "description"),
   includesSub e (str "backend"), includesSub e (str "url"),
   includesSub e (str "missing") || includesSub e (str "cannot find")⟩

/-! ## Post-processing -/

/-- Inner `sanitizeAllBackendLines` of `postProcessOutput`. -/
def sanitizeAllBackendLines (input bn : L) : L :=
  let phase2 := extractPhase2 input
  if phase2 = [] then input
  else
    let before := match indexOfSub input phase2 with
      | some k => input.take k
      | none => input.dropLast
    let vBlocks := splitVariantsPhase2 phase2 3
    let rebuilt := vBlocks.map (fun vb =>
      let block := vb.text
      let backendBlock := backendSectionOf block
      if backendBlock = [] then vb
      else
        let backendLine := parseBackendLine backendBlock
        let clean := collapseSpaces (removeBrandFromBackend (asciiNormalizeBackend backendLine) bn)
        ⟨vb.label, replaceBackendLineInBlock block clean⟩)
    let hasVariants := testRe patVariantLoose phase2
    let header := let h := extractPhase2Header phase2
                  if h ≠ [] then h else str "ФАЗА 2 · ЛИСТИНГ"
    let joined :=
      if hasVariants then
        trimJS (joinLines (header :: rebuilt.flatMap (fun r => [r.label, r.text].filter (· ≠ []))))
      else
        let t0 := (rebuilt.headD ⟨[], []⟩).text
        trimJS (joinLines [header, if t0 ≠ [] then t0 else phase2])
    trimJS (before ++ joined)

/-- `(\s*\(Chars:\s*\d+\s*\))?\s*$` applied to the remainder of a line. -/
def parseCharsCounter (s : L) : Option L :=
  match pmatchA ([.lit '('] ++ ciStr "Chars" ++ [.lit ':', .ws0]) s with
  | none => none
  | some r1 =>
    let ds := r1.takeWhile isDigitCh
    if ds = [] then none
    else
      match (r1.dropWhile isDigitCh).dropWhile isJsSpace with
      | ')' :: r2 => some r2
      | _ => none

def isCounterThenEnd (s : L) : Bool :=
  let s1 := s.dropWhile isJsSpace
  if s1 = [] then true
  else
    match parseCharsCounter s1 with
    | some r2 => (r2.dropWhile isJsSpace).isEmpty
    | none => false

/-- Lazy `(.+?)` group: shortest nonempty prefix whose remainder is an
optional `(Chars: N)` annotation followed by whitespace. -/
def lazySplit : L → L
  | [] => []
  | c :: r => if isCounterThenEnd r then [c] else c :: lazySplit r

/-- One line under `/^\s*1\.\s*(.+?)(\s*\(Chars:\s*\d+\s*\))?\s*$/gim` (and the
same with `2.`): rewrite the counter to the title's true length. -/
def rewriteNumTitleLine (n : Char) (line : L) : L :=
  let s1 := line.dropWhile isJsSpace
  match s1 with
  | c :: '.' :: r =>
    if c = n then
      let b := r.dropWhile isJsSpace
      if b = [] then
        if r = [] then line
        else n :: '.' :: ' ' :: str " (Chars: 0)"
      else
        let title := stripCounterSuffix (lazySplit b)
        n :: '.' :: ' ' :: (title ++ str " (Chars: " ++ natToChars (lenL title) ++ [')'])
    else line
  | _ => line

/-- One line under `/^(Product\s*Description)\s*\(Chars:\s*\d+\s*\)\s*$/gim`. -/
def descCounterLineRewrite (newCount : Nat) (line : L) : L :=
  match pmatchA patProdDesc line with
  | none => line
  | some rest =>
    let a := line.take (lenL line - lenL rest)
    match parseCharsCounter (rest.dropWhile isJsSpace) with
    | some r2 =>
      if (r2.dropWhile isJsSpace).isEmpty then
        a ++ str " (Chars: " ++ natToChars newCount ++ [')']
      else line
    | none => line

/-- `\(Bytes:\s*\d+\s*\)` at the start of `s`; returns the rest after `)`. -/
def parseBytesCounterAt (s : L) : Option L :=
  match pmatchA ([.lit '('] ++ ciStr "Bytes" ++ [.lit ':', .ws0]) s with
  | none => none
  | some r1 =>
    let ds := r1.takeWhile isDigitCh
    if ds = [] then none
    else
      match (r1.dropWhile isDigitCh).dropWhile isJsSpace with
      | ')' :: r2 => some r2
      | _ => none

/-- `(\s*:?\s*)$` -/
def tailColonOk (s : L) : Bool :=
  match s.dropWhile isJsSpace with
  | ':' :: r => (r.dropWhile isJsSpace).isEmpty
  | s1 => s1.isEmpty

/-- Last offset at which `(Bytes: N)` parses with a valid `(\s*:?\s*)$` tail,
as selected by the greedy `.*` of the Bytes-counter regex. -/
def lastBytesSplitAux : L → Nat → Option (Nat × L) → Option (Nat × L)
  | [], _, best => best
  | s@(_ :: t), i, best =>
    let best' := match parseBytesCounterAt s with
      | some r2 => if tailColonOk r2 then some (i, r2) else best
      | none => best
    match i + 1 with
    | 0 => lastBytesSplitAux t 0 best'
    | m + 1 => lastBytesSplitAux t (m + 1) best'

/-- One line under
`/^(Backend\s*[—-]\s*Generic\s*Keywords.*)\(Bytes:\s*\d+\s*\)(\s*:?\s*)$/gim`. -/
def backendBytesLineRewrite (newBytes : Nat) (line : L) : L :=
  match pmatchA patBackendGeneric line with
  | none => line
  | some rest =>
    let preLen := lenL line - lenL rest
    match lastBytesSplitAux rest 0 none with
    | none => line
    | some (off, b) =>
      line.take (preLen + off) ++ str "(Bytes: " ++ natToChars newBytes ++ [')'] ++ b

/-- `/Backend\s*[—-]\s*Generic\s*Keywords\s*\(1\s*ред\)/i` -/
def patBackendGenericRed : List Atom :=
  patBackendGeneric ++ [.ws0, .lit '(', .lit '1', .ws0] ++ ciStr "ред" ++ [.lit ')']

/-- One line under `/^(Backend\s*[—-]\s*Generic\s*Keywords\s*\(1\s*ред\))\s*:\s*$/gim`. -/
def addBytesLineRewrite (newBytes : Nat) (line : L) : L :=
  match pmatchA patBackendGenericRed line with
  | none => line
  | some rest =>
    let a := line.take (lenL line - lenL rest)
    match rest.dropWhile isJsSpace with
    | ':' :: r2 =>
      if (r2.dropWhile isJsSpace).isEmpty then
        a ++ str " (Bytes: " ++ natToChars newBytes ++ str "):"
      else line
    | _ => line

def mapLines (f : L → L) (input : L) : L := joinLines ((splitLines input).map f)

/-- Inner `refreshCounters` of `postProcessOutput`, as the five sequential
line-anchored regex replaces of the source (each count is computed from the
string as it stands before its own replace). -/
def refreshCounters (input0 : L) : L :=
  let s1 := mapLines (rewriteNumTitleLine '1') input0
  let s2 := mapLines (rewriteNumTitleLine '2') s1
  let s3 :=
    let blk := extractSectionAround s2 patProdDesc patBackendWord
    let newCount := if blk = [] then 0 else lenL (stripDescriptionHeading blk)
    mapLines (descCounterLineRewrite newCount) s2
  let s4 :=
    let blk := backendSectionAround s3
    let newBytes := if blk = [] then 0 else byteLen (asciiNormalizeBackend (parseBackendLine blk))
    mapLines (backendBytesLineRewrite newBytes) s3
  let s5 :=
    let blk := backendSectionAround s4
    let backendLine := if blk = [] then [] else parseBackendLine blk
    let newBytes := byteLen (asciiNormalizeBackend backendLine)
    mapLines (addBytesLineRewrite newBytes) s4
  s5

/-- `postProcessOutput`: backend sanitation followed by counter refresh.
(The `cfg` field of its options object is never read.) -/
def postProcessOutput (text brandName : L) : L :=
  let s := trimJS text
  if s = [] then s
  else trimJS (refreshCounters (sanitizeAllBackendLines s brandName))

/-! ## Backend-call boundary

A call to the generation service either yields a response (from which the
code extracts the flattened output text and the web-search source URLs),
or fails: `abort` models the `AbortController` timeout (`AbortError`),
`httpErr` a non-2xx response, whose message the code throws. -/

structure GenData where
  text : L
  sources : List L

inductive CallRes where
  | ok (d : GenData)
  | abort
  | httpErr (msg : L)

inductive CErr where
  | abort
  | http (msg : L)
  deriving DecidableEq

/-- `callOpenAI`, over the oracle: the n-th backend call's outcome. -/
def callOpenAI (calls : Nat → CallRes) (k : Nat) : Except CErr (GenData × Nat) :=
  match calls k with
  | .ok d => .ok (d, k + 1)
  | .abort => .error .abort
  | .httpErr m => .error (.http m)

/-- `extractText`: the flattened output text, trimmed; empty means no text. -/
def extractText (d : GenData) : L := trimJS d.text

def dedupAux : List L → List L → List L
  | _, [] => []
  | seen, u :: us => if seen.contains u then dedupAux seen us else u :: dedupAux (u :: seen) us

/-- `extractWebSources`: the `web_search_call` source URLs, filtered to
`http(s)` and de-duplicated in order. -/
def extractWebSources (d : GenData) : List L :=
  dedupAux [] ((d.sources.map (fun u => trimJS u)).filter isHttpUrl)

/-! ## Targeted fixes (`fix*AllVariants`), threaded over the call oracle -/

/-- Loop body of `fixTitlesAllVariants`. -/
def fixTitlesLoop (calls : Nat → CallRes) : List VB → Nat → Except CErr (List VB × Nat)
  | [], k => .ok ([], k)
  | vb :: vbs, k => do
    let block := vb.text
    if titlesBlockOf block = [] then
      let (rest, k') ← fixTitlesLoop calls vbs k
      return (vb :: rest, k')
    else
      let (d, k1) ← callOpenAI calls k
      let cleaned := trimJS (extractText d)
      if cleaned = [] then
        let (rest, k') ← fixTitlesLoop calls vbs k1
        return (vb :: rest, k')
      else
        let newBlock := replaceSection block titlesHeaderMatch patBulletPoints
          (str "Titles (2 варианта):" ++ '\n' :: cleaned ++ ['\n'])
        let (rest, k') ← fixTitlesLoop calls vbs k1
        return (⟨vb.label, newBlock⟩ :: rest, k')

/-- `fixTitlesAllVariants`. -/
def fixTitlesAllVariants (calls : Nat → CallRes) (fullText : L) (variants : Nat)
    (k : Nat) : Except CErr (L × Nat) := do
  let phase2 := extractPhase2 fullText
  if phase2 = [] then return (fullText, k)
  else
    let vBlocks := splitVariantsPhase2 phase2 variants
    let (fixedBlocks, k') ← fixTitlesLoop calls vBlocks k
    return (rebuildPhase2 fullText fixedBlocks, k')

/-- Loop body of `fixBulletsAllVariants`. -/
def fixBulletsLoop (calls : Nat → CallRes) : List VB → Nat → Except CErr (List VB × Nat)
  | [], k => .ok ([], k)
  | vb :: vbs, k => do
    let block := vb.text
    if bulletsBlockOf block = [] then
      let (rest, k') ← fixBulletsLoop calls vbs k
      return (vb :: rest, k')
    else
      let (d, k1) ← callOpenAI calls k
      let cleaned := trimJS (extractText d)
      if cleaned = [] then
        let (rest, k') ← fixBulletsLoop calls vbs k1
        return (vb :: rest, k')
      else
        let newBlock := replaceSection block bulletsHeaderMatch patProdDesc
          (str "Bullet Points (5):" ++ '\n' :: cleaned ++ '\n' :: '\n' :: str "Product Description")
        let (rest, k') ← fixBulletsLoop calls vbs k1
        return (⟨vb.label, newBlock⟩ :: rest, k')

/-- `fixBulletsAllVariants`. -/
def fixBulletsAllVariants (calls : Nat → CallRes) (fullText : L) (variants : Nat)
    (k : Nat) : Except CErr (L × Nat) := do
  let phase2 := extractPhase2 fullText
  if phase2 = [] then return (fullText, k)
  else
    let vBlocks := splitVariantsPhase2 phase2 variants
    let (fixedBlocks, k') ← fixBulletsLoop calls vBlocks k
    return (rebuildPhase2 fullText fixedBlocks, k')

/-- Loop body of `fixDescriptionAllVariants`: a replacement with trimmed
length outside `[DESC_MIN, DESC_MAX]` is discarded and the block kept. -/
def fixDescriptionLoop (calls : Nat → CallRes) (cfg : Cfg) :
    List VB → Nat → Except CErr (List VB × Nat)
  | [], k => .ok ([], k)
  | vb :: vbs, k => do
    let block := vb.text
    if descBlockOf block = [] then
      let (rest, k') ← fixDescriptionLoop calls cfg vbs k
      return (vb :: rest, k')
    else
      let (d, k1) ← callOpenAI calls k
      let cleaned := trimJS (extractText d)
      let len := lenL cleaned
      if len < cfg.DESC_MIN || len > cfg.DESC_MAX then
        let (rest, k') ← fixDescriptionLoop calls cfg vbs k1
        return (vb :: rest, k')
      else
        let newBlock := replaceDescriptionInBlock block cleaned
        let (rest, k') ← fixDescriptionLoop calls cfg vbs k1
        return (⟨vb.label, newBlock⟩ :: rest, k')

/-- `fixDescriptionAllVariants`. -/
def fixDescriptionAllVariants (calls : Nat → CallRes) (cfg : Cfg) (fullText : L)
    (variants : Nat) (k : Nat) : Except CErr (L × Nat) := do
  let phase2 := extractPhase2 fullText
  if phase2 = [] then return (fullText, k)
  else
    let vBlocks := splitVariantsPhase2 phase2 variants
    let (fixedBlocks, k') ← fixDescriptionLoop calls cfg vBlocks k
    return (rebuildPhase2 fullText fixedBlocks, k')

/-- Loop body of `fixBackendAllVariants`. -/
def fixBackendLoop (calls : Nat → CallRes) (cfg : Cfg) (brandName : L) :
    List VB → Nat → Except CErr (List VB × Nat)
  | [], k => .ok ([], k)
  | vb :: vbs, k => do
    let block := vb.text
    if backendSectionOf block = [] then
      let (rest, k') ← fixBackendLoop calls cfg brandName vbs k
      return (vb :: rest, k')
    else
      let (d, k1) ← callOpenAI calls k
      let out := removeBrandFromBackend
        (collapseSpaces (asciiNormalizeBackend (extractText d))) brandName
      if out = [] then
        let (rest, k') ← fixBackendLoop calls cfg brandName vbs k1
        return (vb :: rest, k')
      else
        let out := if byteLen out > cfg.BACKEND_MAX_BYTES
                   then hardTrimBackendToBytes out cfg.BACKEND_MAX_BYTES else out
        let (rest, k') ← fixBackendLoop calls cfg brandName vbs k1
        return (⟨vb.label, replaceBackendLineInBlock block out⟩ :: rest, k')

/-- `fixBackendAllVariants`: the only caller of `hardTrimBackendToBytes`. -/
def fixBackendAllVariants (calls : Nat → CallRes) (cfg : Cfg) (brandName : L)
    (fullText : L) (variants : Nat) (k : Nat) : Except CErr (L × Nat) := do
  let phase2 := extractPhase2 fullText
  if phase2 = [] then return (fullText, k)
  else
    let vBlocks := splitVariantsPhase2 phase2 variants
    let (fixedBlocks, k') ← fixBackendLoop calls cfg brandName vBlocks k
    return (rebuildPhase2 fullText fixedBlocks, k')

/-! ## The generate endpoint (`functions/api/generate.js` `onRequestPost`) -/

structure GenBody where
  marketplace : Option L
  brand_voice : Option L
  brand_name : Option L
  usp : Option L
  user_prompt : Option L
  variants : Option Nat

inductive RespBody where
  | err (msg : L)
  | errDebug (msg : L)
  | out (text : L)
  | outFull (text : L) (ok : Bool) (remaining : List L)
  | tokenExp (token : L) (exp : Nat)
  deriving DecidableEq

structure Resp where
  status : Nat
  body : RespBody
  deriving DecidableEq

/-- Steps 1-5 of the handler's `try` block: initial call, full-rewrite repair,
then the targeted fixes, threading the oracle index.  A thrown
`AbortError`/backend error propagates as `Except.error` to the handler's
`catch`. -/
def generatePipeline (calls : Nat → CallRes) (brandName : L) (variants : Nat) :
    Except CErr Resp := do
  let (first, k1) ← callOpenAI calls 0
  let output0 := extractText first
  if output0 = [] then return ⟨500, .errDebug (str "Empty output from OpenAI")⟩
  let sources := extractWebSources first
  let output1 := ensurePhase1Sources output0 sources
  let output2 := postProcessOutput output1 brandName
  let v1 := validateOutput output2 brandName CFG variants
  if v1.ok then return ⟨200, .out output2⟩
  let (repaired, k2) ← callOpenAI calls k1
  let rt := extractText repaired
  let output3 := if rt = [] then output2 else rt
  let sources2 := extractWebSources repaired
  let output4 := ensurePhase1Sources output3 (if sources2 ≠ [] then sources2 else sources)
  let output5 := postProcessOutput output4 brandName
  let v2 := validateOutput output5 brandName CFG variants
  if v2.ok then return ⟨200, .out output5⟩
  let phase2 := extractPhase2 output5
  if phase2 = [] then return ⟨200, .out output5⟩
  let flags := classifyErrors v2.errors
  let (f1, k3) ← if flags.titles then fixTitlesAllVariants calls output5 variants k2
                 else pure (output5, k2)
  let (f2, k4) ← if flags.bullets then fixBulletsAllVariants calls f1 variants k3
                 else pure (f1, k3)
  let (f3, k5) ← if flags.description then fixDescriptionAllVariants calls CFG f2 variants k4
                 else pure (f2, k4)
  let (f4, _) ← if flags.backend then fixBackendAllVariants calls CFG brandName f3 variants k5
                else pure (f3, k5)
  let final := postProcessOutput f4 brandName
  let v3 := validateOutput final brandName CFG variants
  return ⟨200, .outFull final v3.ok (if v3.ok then [] else v3.errors)⟩

/-- `onRequestPost` of generate.js.  `hasApiKey` is the truthiness of
`env.OPENAI_API_KEY`; `body = none` models a JSON parse failure; the prompt
strings sent to the backend are absorbed into the call oracle. -/
def onRequestPostGenerate (hasApiKey : Bool) (body : Option GenBody)
    (calls : Nat → CallRes) : Resp :=
  if !hasApiKey then ⟨500, .err (str "OPENAI_API_KEY missing in runtime env")⟩
  else
    match body with
    | none => ⟨400, .err (str "Invalid JSON body")⟩
    | some b =>
      let marketplace := trimJS (b.marketplace.getD [])
      let brandName := trimJS (b.brand_name.getD [])
      let userPrompt := trimJS (b.user_prompt.getD [])
      let variants := if b.variants.getD 1 = 3 then 3 else 1
      if marketplace = [] then ⟨400, .err (str "Missing marketplace")⟩
      else if brandName = [] then ⟨400, .err (str "Missing brand_name")⟩
      else if userPrompt = [] then ⟨400, .err (str "Missing user_prompt")⟩
      else
        match generatePipeline calls brandName variants with
        | .ok r => r
        | .error .abort => ⟨500, .err (str "Timeout while calling OpenAI. Try again.")⟩
        | .error (.http m) => ⟨500, .err m⟩

/-! ## The auth endpoint (`functions/api/auth.js`)

JS strings are compared code unit by code unit in `timingSafeEqual`
(`charCodeAt`), so the auth strings are modelled as lists of UTF-16 code
units (`List Nat`).  Code units are < 2^16 and string lengths < 2^31, so the
JS 32-bit coercion of `^` and `|=` is the identity and plain `Nat` bitwise
operations are exact. -/

/-- `timingSafeEqual` of auth.js. -/
def timingSafeEqual (a b : List Nat) : Bool :=
  let len := max a.length b.length
  let diff := (List.range len).foldl
    (fun d i => d ||| ((a.getD i 0) ^^^ (b.getD i 0))) (a.length ^^^ b.length)
  diff == 0

def b64UrlAlphabet : L :=
  str "ABCDEFGHIJKLMNOPQRSTUVWXYZabcdefghijklmnopqrstuvwxyz0123456789-_"

def b64CharAt (n : Nat) : Char := b64UrlAlphabet.getD n 'A'

/-- `base64UrlEncode` of auth.js (`btoa` then `+/=` fixup), written directly
on the url-safe alphabet without padding. -/
def base64UrlEncode : List Nat → L
  | [] => []
  | [b0] => [b64CharAt (b0 / 4), b64CharAt (b0 % 4 * 16)]
  | [b0, b1] => [b64CharAt (b0 / 4), b64CharAt (b0 % 4 * 16 + b1 / 16), b64CharAt (b1 % 16 * 4)]
  | b0 :: b1 :: b2 :: rest =>
    b64CharAt (b0 / 4) :: b64CharAt (b0 % 4 * 16 + b1 / 16) ::
    b64CharAt (b1 % 16 * 4 + b2 / 64) :: b64CharAt (b2 % 64) :: base64UrlEncode rest

/-- UTF-8 bytes of a string (`TextEncoder().encode`). -/
def utf8Char (c : Char) : List Nat :=
  let n := c.toNat
  if n < 0x80 then [n]
  else if n < 0x800 then [0xC0 + n / 64, 0x80 + n % 64]
  else if n < 0x10000 then [0xE0 + n / 4096, 0x80 + n / 64 % 64, 0x80 + n % 64]
  else [0xF0 + n / 262144, 0x80 + n / 4096 % 64, 0x80 + n / 64 % 64, 0x80 + n % 64]

def utf8Bytes (s : L) : List Nat := (s.map utf8Char).flatten

/-- `JSON.stringify({ v: 1, iat: now, exp })`. -/
def authPayloadJson (now exp : Nat) : L :=
  str "\x7b\"v\":1,\"iat\":" ++ natToChars now ++ str ",\"exp\":" ++ natToChars exp ++ str "\x7d"

/-- `onRequestPost` of auth.js.  `envPw`/`envSecret` are the code units of
`ACCESS_PASSWORD` / `ACCESS_TOKEN_SECRET` (`[]` models a missing or empty,
i.e. falsy, variable); `body = none` a JSON parse failure; `hmac` the
HMAC-SHA256 of `crypto.subtle` closed over the secret. -/
def onRequestPostAuth (envPw envSecret : List Nat) (body : Option (Option (List Nat)))
    (now : Nat) (hmac : L → List Nat) : Resp :=
  if envPw = [] then ⟨500, .err (str "ACCESS_PASSWORD missing in env")⟩
  else if envSecret = [] then ⟨500, .err (str "ACCESS_TOKEN_SECRET missing in env")⟩
  else
    match body with
    | none => ⟨400, .err (str "Invalid JSON body")⟩
    | some pwField =>
      let password := pwField.getD []
      if !timingSafeEqual password envPw then ⟨401, .err (str "Invalid password")⟩
      else
        let exp := now + 7 * 24 * 60 * 60
        let payloadB64 := base64UrlEncode (utf8Bytes (authPayloadJson now exp))
        let token := payloadB64 ++ '.' :: base64UrlEncode (hmac payloadB64)
        ⟨200, .tokenExp token exp⟩

/-! ## Matcher analysis helpers (for reasoning about scans over partially
symbolic text) -/

/-- Three-valued match on a prefix of the input: `fail` and `done` are stable
under extending the input to the right, `more` means the prefix ran out. -/
inductive M3 where
  | fail
  | more
  | done (rest : L)
  deriving DecidableEq

def pmatch3 : List Atom → L → M3
  | [], s => .done s
  | _ :: _, [] => .more
  | .lit c :: ps, d :: s => if d = c then pmatch3 ps s else .fail
  | .litCI c :: ps, d :: s => if lowerChar d = c then pmatch3 ps s else .fail
  | .anyOf cs :: ps, d :: s => if cs.contains d then pmatch3 ps s else .fail
  | .ws0 :: ps, s@(_ :: _) =>
    match s.dropWhile isJsSpace with
    | [] => .more
    | _ :: _ => pmatch3 ps (s.dropWhile isJsSpace)
  | .ws1 :: ps, d :: s =>
    if isJsSpace d then
      match (d :: s).dropWhile isJsSpace with
      | [] => .more
      | _ :: _ => pmatch3 ps ((d :: s).dropWhile isJsSpace)
    else .fail
  | .notWordNext :: ps, d :: s => if isWordChar d then .fail else pmatch3 ps (d :: s)

/-- Conservative set of characters that can begin a match of `pat`. -/
def canStart : List Atom → Char → Bool
  | [], _ => true
  | .lit d :: _, c => c = d
  | .litCI d :: _, c => lowerChar c = d
  | .anyOf ds :: _, c => ds.contains c
  | .ws0 :: ps, c => isJsSpace c || canStart ps c
  | .ws1 :: _, c => isJsSpace c
  | .notWordNext :: ps, c => !isWordChar c && canStart ps c

/-- Every suffix of `s` fails `pat` outright. -/
def failsAll (pat : List Atom) : L → Bool
  | [] => true
  | s@(_ :: rest) => (pmatch3 pat s == .fail) && failsAll pat rest

/-- The first `p` suffixes of `s` fail `pat` outright. -/
def failsBefore (pat : List Atom) : L → Nat → Bool
  | _, 0 => true
  | [], _ + 1 => true
  | s@(_ :: rest), p + 1 => (pmatch3 pat s == .fail) && failsBefore pat rest p

/-- Characters allowed in a quantified description body / replacement for the
C5 splice analysis: they can start none of the section, phase or variant
markers (and are not the bullet dot). -/
def descSafeChar (c : Char) : Bool :=
  !(['p', 'b', 't', 'a', 'c', 'v', 'ф'].contains (lowerChar c)) && c ≠ '•'

/-- No suffix of `s` (the empty suffix included) matches `pat` at its start. -/
def noMatchAt (pat : List Atom) (s : L) : Prop :=
  ∀ i, pmatchB pat (s.drop i) = false

/-- Spec comparison notion for C8: the brand occurs in the backend line as a
whole whitespace-delimited word (case-insensitive).  Follows the spec's words
"must not contain the brand token as a whole word"; the source instead checks
a substring (`includesBrand`). -/
def brandWholeWordInBackend (line brand : L) : Bool :=
  (wordsOf line).any (fun tok => lowerL tok = lowerL brand)

/-- Calls consumed before block `i` by the description-repair loop: one per
earlier block that has a description section. -/
def countDescBlocks (vbs : List VB) : Nat :=
  (vbs.filter (fun vb => descBlockOf vb.text ≠ [])).length

def descCallIndex (vbs : List VB) (k i : Nat) : Nat := k + countDescBlocks (vbs.take i)

/-! ## Concrete documents and inputs used by counterexamples and witnesses -/

def brandL : L := str "Lumina"

/-- C1 failing input: the backend line is exactly the brand name, so
sanitation empties it. -/
def docC1 : L :=
  str "ФАЗА 1\nФАЗА 2 · ЛИСТИНГ\nBackend — Generic Keywords (1 ред) (Bytes: 6):\nLumina\nActive Ingredients:\nx"

/-- C2 counterexample input: an ASCII backend line of 260 bytes that
normalization does not shorten. -/
def docC2 : L :=
  str "ФАЗА 1\nФАЗА 2 · ЛИСТИНГ\nBackend — Generic Keywords (1 ред) (Bytes: 260):\n" ++
  List.replicate 260 'k' ++ str "\nActive Ingredients:\nx"

/-- A small constraint configuration (the validator is uniform in `cfg`;
witnesses use this to keep concrete evaluation small). -/
def cfgS : Cfg := ⟨4, 60, 70, 2, 5, 40, 3, 80, 12⟩

/-- A document `validateOutput` accepts under `cfgS` whose raw backend line
is 23 bytes (> `cfgS.BACKEND_MAX_BYTES` = 12): normalization collapses its
dot run, so only the normalized line is within budget. -/
def docS : L :=
  str "ФАЗА 1 · РЕСЪРЧ\nФАЗА 2 · ЛИСТИНГ\nTitles (2 варианта):\n1. Lumina Serum\n2. Lumina Care\nBullet Points (5):\n• **La**: great serum\n• **Lb**: fresh care\nProduct Description (Chars: 22)\ngreat description here\nBackend — Generic Keywords (1 ред) (Bytes: 3):\nx" ++
  List.replicate 20 '.' ++ str " y\nActive Ingredients:\nNot listed"

/-- The single parsed variant block of a document. -/
def blockOf (d : L) : L :=
  ((splitVariantsPhase2 (extractPhase2 d) 1).headD ⟨[], []⟩).text

/-- C6 oracle: first call returns a (non-validating) text, the repair call
times out. -/
def callsC6 : Nat → CallRes :=
  fun k => if k = 0 then .ok ⟨str "x", []⟩ else .abort

def bodyC6 : GenBody :=
  ⟨some (str "amazon.de"), none, some (str "Lumina"), none, some (str "serum"), none⟩

/-- C9 counterexample body: marketplace and brand_name both missing. -/
def bodyC9 : GenBody := ⟨none, none, none, none, some (str "serum"), none⟩

def callsAbort : Nat → CallRes := fun _ => .abort

/-- C5 counterexample: the titles section contains the text
`Product Description`, so the description splice clobbers the bullets. -/
def docC5bad : L :=
  str "ФАЗА 1\nФАЗА 2 · ЛИСТИНГ\nTitles (2 варианта):\n1. Product Description of Lumina\nBullet Points (5):\n• **La**: great serum\nProduct Description (Chars: 3)\nold\nBackend — Generic Keywords (1 ред) (Bytes: 7):\nkw1 kw2\nActive Ingredients:\nx"

def callsRepl (r : L) : Nat → CallRes := fun _ => .ok ⟨r, []⟩

/-- C5 parametric document: canonical single-variant shape with the
description body abstracted. -/
def c5Pre : L :=
  str "ФАЗА 1\nФАЗА 2 · ЛИСТИНГ\nTitles (2 варианта):\n1. Lumina Serum\nBullet Points (5):\n• **La**: great serum\nProduct Description (Chars: 20)\n"

def c5Post : L :=
  str "\nBackend — Generic Keywords (1 ред) (Bytes: 7):\nkw1 kw2\nActive Ingredients:\nNot listed"

def docC5 (old : L) : L := c5Pre ++ old ++ c5Post

def c5A : L := str "ФАЗА 1\n"

def c5B : L := str "ФАЗА 2 · ЛИСТИНГ\n"

def c5Bline : L := str "ФАЗА 2 · ЛИСТИНГ"

def c5C1 : L := str "Titles (2 варианта):\n1. Lumina Serum\n"

def c5C2 : L := str "Bullet Points (5):\n• **La**: great serum\n"

def c5D : L := str "Product Description (Chars: 20)\n"

def c5Dline : L := str "Product Description (Chars: 20)"

def c5F : L := str "Backend — Generic Keywords (1 ред) (Bytes: 7):\nkw1 kw2\n"

def c5G : L := str "Active Ingredients:\nNot listed"

/-- The phase-2 variant block of the canonical C5 document, with the raw
description body abstracted. -/
def c5Block (mid : L) : L := c5C1 ++ (c5C2 ++ (c5D ++ (mid ++ c5Post)))

/-- The concrete result of the C5 counterexample repair: the splice anchored at
the title text destroys the bullets section. -/
def docC5badFixed : L :=
  str "ФАЗА 1\nФАЗА 2 · ЛИСТИНГ\nTitles (2 варианта):\n1.\nProduct Description of Lumina\nnew fresh desc\n\nBackend — Generic Keywords (1 ред) (Bytes: 7):\nkw1 kw2\nActive Ingredients:\nx"


/-- C7 witness block: has a description section. -/
def vbC7 : VB :=
  ⟨[], str "Titles (2 варианта):\n1. Lumina Serum\nBullet Points (5):\n• **La**: great serum\nProduct Description (Chars: 3)\nold\nBackend — Generic Keywords (1 ред) (Bytes: 7):\nkw1 kw2\nActive Ingredients:\nx"⟩

deriving instance DecidableEq for Except

-- THEOREMS ---------------------------------------------------------------

/-- C1: post-processing is NOT idempotent.  On `docC1`, whose backend line is
exactly the brand name, sanitation empties the keyword line; on the next
application `parseBackendLine` finds no keyword line any more and
`replaceBackendLineInBlock` falls through to its insert branch, adding one
more blank line after the backend heading on every application.  The spec's
stated property `postprocess(postprocess(d)) == postprocess(d)` therefore
fails; the unbounded blank-line growth is a slip in the code. -/
theorem C1_postProcessOutput_not_idempotent :
    postProcessOutput (postProcessOutput docC1 brandL) brandL ≠
      postProcessOutput docC1 brandL := by
  decide

/-- C2 counterexample: `postProcessOutput` does not hard-trim the backend
line.  On `docC2` the backend line is 260 ASCII bytes, which exceeds
`BACKEND_MAX_BYTES = 250`, and the post-processed document still carries the
260-byte line. -/
theorem C2_postProcess_leaves_overlong_backend :
    CFG.BACKEND_MAX_BYTES = 250 ∧
    byteLen (parseBackendLine (backendSectionOf
      (blockOf (postProcessOutput docC2 brandL)))) = 260 := by
  decide

theorem byteLen_nil : byteLen [] = 0 := rfl

theorem joinWith_cons_cons (sep : L) (a b : L) (t : List L) :
    joinWith sep (a :: b :: t) = a ++ sep ++ joinWith sep (b :: t) := rfl

theorem joinWith_append_single (sep : L) (out : List L) (x : L) :
    joinWith sep (out ++ [x]) = if out = [] then x else joinWith sep out ++ sep ++ x := by
  induction out with
  | nil => simp [joinWith]
  | cons y ys ih =>
    cases ys with
    | nil => simp [joinWith]
    | cons z zs =>
      have ih2 : joinWith sep ((z :: zs) ++ [x]) = joinWith sep (z :: zs) ++ sep ++ x := by
        simpa using ih
      simp only [List.cons_append, joinWith_cons_cons]
      rw [List.cons_append] at ih2
      rw [ih2]
      simp [List.append_assoc]

theorem hardTrimAux_spec (maxBytes : Nat) :
    ∀ (toks out : List L), byteLen (joinWith [' '] out) ≤ maxBytes →
      byteLen (joinWith [' '] (hardTrimAux maxBytes out toks)) ≤ maxBytes ∧
      ∃ k, hardTrimAux maxBytes out toks = out ++ toks.take k := by
  intro toks
  induction toks with
  | nil =>
    intro out h
    exact ⟨by simpa [hardTrimAux] using h, 0, by simp [hardTrimAux]⟩
  | cons tok toks ih =>
    intro out h
    have hcand : (if out = [] then tok else joinWith [' '] out ++ ' ' :: tok) =
        joinWith [' '] (out ++ [tok]) := by
      rw [joinWith_append_single]
      split <;> simp
    rw [hardTrimAux]
    simp only [hcand]
    split
    · rename_i hle
      obtain ⟨h1, k, h2⟩ := ih (out ++ [tok]) hle
      refine ⟨h1, k + 1, ?_⟩
      rw [h2]
      simp [List.take_succ_cons]
    · exact ⟨h, 0, by simp⟩

/-- C2 (amended): `postProcessOutput` never enforces the byte budget (see the
counterexample); the hard-trim guarantee belongs to `hardTrimBackendToBytes`,
which is called only from the backend-targeted repair
(`fixBackendAllVariants`): its result always fits the byte budget and is the
space-join of a prefix of the whitespace-delimited token list — trailing
tokens are dropped whole, never split. -/
theorem C2_hardTrimBackendToBytes_spec :
    ∀ (backend : L) (maxBytes : Nat),
      byteLen (hardTrimBackendToBytes backend maxBytes) ≤ maxBytes ∧
      ∃ k, hardTrimBackendToBytes backend maxBytes =
        joinWith [' '] ((((splitCh ' ' (collapseSpaces backend))).filter (· ≠ [])).take k) := by
  intro backend maxBytes
  have h0 : byteLen (joinWith [' '] ([] : List L)) ≤ maxBytes := by
    simp [joinWith, byteLen_nil]
  obtain ⟨h1, k, h2⟩ :=
    hardTrimAux_spec maxBytes ((splitCh ' ' (collapseSpaces backend)).filter (· ≠ [])) [] h0
  refine ⟨by simpa [hardTrimBackendToBytes] using h1, k, ?_⟩
  show joinWith [' '] (hardTrimAux maxBytes []
    ((splitCh ' ' (collapseSpaces backend)).filter (· ≠ []))) = _
  rw [h2]
  simp only [List.nil_append]

theorem lor_eq_zero_iff (m n : Nat) : m ||| n = 0 ↔ m = 0 ∧ n = 0 := by
  constructor
  · intro h
    have hb : ∀ i, Nat.testBit m i = false ∧ Nat.testBit n i = false := by
      intro i
      have := congrArg (fun x => Nat.testBit x i) h
      simpa [Nat.testBit_lor] using this
    exact ⟨Nat.zero_of_testBit_eq_false (fun i => (hb i).1),
           Nat.zero_of_testBit_eq_false (fun i => (hb i).2)⟩
  · rintro ⟨rfl, rfl⟩; rfl

theorem foldl_lor_eq_zero (f : Nat → Nat) (l : List Nat) (init : Nat) :
    l.foldl (fun d i => d ||| f i) init = 0 ↔ init = 0 ∧ ∀ i ∈ l, f i = 0 := by
  induction l generalizing init with
  | nil => simp
  | cons x xs ih =>
    simp only [List.foldl_cons, ih, lor_eq_zero_iff, List.mem_cons]
    constructor
    · rintro ⟨⟨h1, h2⟩, h3⟩
      exact ⟨h1, fun i hi => hi.elim (fun e => e ▸ h2) (h3 i)⟩
    · rintro ⟨h1, h2⟩
      exact ⟨⟨h1, h2 x (Or.inl rfl)⟩, fun i hi => h2 i (Or.inr hi)⟩

theorem timingSafeEqual_iff (a b : List Nat) : timingSafeEqual a b = true ↔ a = b := by
  unfold timingSafeEqual
  simp only [beq_iff_eq]
  rw [foldl_lor_eq_zero]
  constructor
  · rintro ⟨hlen, hall⟩
    have hl : a.length = b.length := Nat.xor_eq_zero.mp hlen
    apply List.ext_getElem hl
    intro i h1 h2
    have hm : i ∈ List.range (max a.length b.length) :=
      List.mem_range.mpr (lt_of_lt_of_le h1 (le_max_left _ _))
    have hx := Nat.xor_eq_zero.mp (hall i hm)
    rwa [List.getD_eq_getElem _ _ h1, List.getD_eq_getElem _ _ h2] at hx
  · rintro rfl
    exact ⟨by simp, fun i _ => by simp⟩

theorem timingSafeEqual_eq_false_of_ne {a b : List Nat} (h : a ≠ b) :
    timingSafeEqual a b = false := by
  cases hh : timingSafeEqual a b
  · rfl
  · exact absurd ((timingSafeEqual_iff _ _).mp hh) h

/-- Characterization of the auth endpoint on a valid body with both secrets
configured. -/
theorem onRequestPostAuth_eq (envPw envSecret : List Nat) (pw : Option (List Nat))
    (now : Nat) (hmac : L → List Nat) (hpw : envPw ≠ []) (hsec : envSecret ≠ []) :
    onRequestPostAuth envPw envSecret (some pw) now hmac =
      if pw.getD [] = envPw then
        ⟨200, .tokenExp
          (base64UrlEncode (utf8Bytes (authPayloadJson now (now + 7 * 24 * 60 * 60))) ++ '.' ::
            base64UrlEncode (hmac (base64UrlEncode
              (utf8Bytes (authPayloadJson now (now + 7 * 24 * 60 * 60))))))
          (now + 7 * 24 * 60 * 60)⟩
      else ⟨401, .err (str "Invalid password")⟩ := by
  unfold onRequestPostAuth
  rw [if_neg hpw, if_neg hsec]
  by_cases h : pw.getD [] = envPw
  · rw [if_pos h]
    have ht : timingSafeEqual (pw.getD []) envPw = true := (timingSafeEqual_iff _ _).mpr h
    simp [ht]
  · rw [if_neg h]
    have ht : timingSafeEqual (pw.getD []) envPw = false := timingSafeEqual_eq_false_of_ne h
    simp [ht]

/-- C10: the password comparison is exact equality, and the auth endpoint
issues a token exactly for the correct password.  `timingSafeEqual` returns
`true` iff the two code-unit strings are equal (the XOR/OR accumulator is 0
iff the lengths and every code unit agree); with both secrets configured and
a valid JSON body, the handler returns 200 with a token iff the supplied
password equals `ACCESS_PASSWORD`, and a 401 `Invalid password` otherwise. -/
theorem C10_timingSafeEqual_and_auth :
    (∀ a b : List Nat, timingSafeEqual a b = true ↔ a = b) ∧
    (∀ (envPw envSecret : List Nat) (pw : Option (List Nat)) (now : Nat) (hmac : L → List Nat),
      envPw ≠ [] → envSecret ≠ [] →
      (((onRequestPostAuth envPw envSecret (some pw) now hmac).status = 200) ↔ pw.getD [] = envPw) ∧
      (pw.getD [] ≠ envPw →
        onRequestPostAuth envPw envSecret (some pw) now hmac =
          ⟨401, .err (str "Invalid password")⟩) ∧
      (pw.getD [] = envPw → ∃ tok, onRequestPostAuth envPw envSecret (some pw) now hmac =
        ⟨200, .tokenExp tok (now + 7 * 24 * 60 * 60)⟩)) := by
  refine ⟨timingSafeEqual_iff, ?_⟩
  intro envPw envSecret pw now hmac hpw hsec
  rw [onRequestPostAuth_eq envPw envSecret pw now hmac hpw hsec]
  by_cases h : pw.getD [] = envPw
  · rw [if_pos h]
    exact ⟨by simpa using h, fun hc => absurd h hc, fun _ => ⟨_, rfl⟩⟩
  · rw [if_neg h]
    exact ⟨by simpa using h, fun _ => rfl, fun hc => absurd hc h⟩

/-- C10 witness: concrete instances of the auth theorem. -/
theorem C10_witness :
    (([104, 105] : List Nat) ≠ []) ∧ (([115] : List Nat) ≠ []) ∧
    ((onRequestPostAuth [104, 105] [115] (some (some [104, 105])) 0 (fun _ => [])).status = 200) ∧
    (onRequestPostAuth [104, 105] [115] (some (some [104])) 0 (fun _ => []) =
      ⟨401, .err (str "Invalid password")⟩) := by
  have h1 := (C10_timingSafeEqual_and_auth.2 [104, 105] [115] (some [104, 105]) 0 (fun _ => [])
    (by decide) (by decide)).1
  have h2 := (C10_timingSafeEqual_and_auth.2 [104, 105] [115] (some [104]) 0 (fun _ => [])
    (by decide) (by decide)).2.1
  exact ⟨by decide, by decide, h1.mpr (by decide), h2 (by decide)⟩

/-- C9 counterexample: a valid-JSON request in which marketplace and
brand_name are both missing receives `Missing marketplace`, not
`Missing brand_name` — the claim's per-field guarantee fails when an
earlier-checked field is also missing. -/
theorem C9_counterexample :
    onRequestPostGenerate true (some bodyC9) callsAbort =
      ⟨400, .err (str "Missing marketplace")⟩ ∧
    str "Missing marketplace" ≠ str "Missing brand_name" := by
  decide

/-- C9 (amended): with the API key present and a valid JSON body, the
required-field checks run in the order marketplace → brand_name →
user_prompt; each missing (or all-whitespace) field yields HTTP 400 with its
field-specific message provided the earlier fields are present, and the
result does not depend on the call oracle — no backend call is made. -/
theorem C9_field_checks_ordered :
    ∀ (b : GenBody) (calls : Nat → CallRes),
      (trimJS (b.marketplace.getD []) = [] →
        onRequestPostGenerate true (some b) calls = ⟨400, .err (str "Missing marketplace")⟩) ∧
      (trimJS (b.marketplace.getD []) ≠ [] → trimJS (b.brand_name.getD []) = [] →
        onRequestPostGenerate true (some b) calls = ⟨400, .err (str "Missing brand_name")⟩) ∧
      (trimJS (b.marketplace.getD []) ≠ [] → trimJS (b.brand_name.getD []) ≠ [] →
        trimJS (b.user_prompt.getD []) = [] →
        onRequestPostGenerate true (some b) calls = ⟨400, .err (str "Missing user_prompt")⟩) := by
  intro b calls
  refine ⟨fun h1 => ?_, fun h1 h2 => ?_, fun h1 h2 h3 => ?_⟩
  · simp [onRequestPostGenerate, h1]
  · simp [onRequestPostGenerate, h1, h2]
  · simp [onRequestPostGenerate, h1, h2, h3]

/-- C9 witness: concrete requests exercising the brand_name and user_prompt
branches of the amended theorem. -/
theorem C9_witness :
    onRequestPostGenerate true
        (some ⟨some (str "amazon.de"), none, none, none, some (str "p"), none⟩) callsAbort =
      ⟨400, .err (str "Missing brand_name")⟩ ∧
    onRequestPostGenerate true
        (some ⟨some (str "amazon.de"), none, some (str "B"), none, none, none⟩) callsAbort =
      ⟨400, .err (str "Missing user_prompt")⟩ := by
  exact ⟨(C9_field_checks_ordered _ callsAbort).2.1 (by decide) (by decide),
         (C9_field_checks_ordered _ callsAbort).2.2 (by decide) (by decide) (by decide)⟩

/-- C6 counterexample: the initial call succeeds (with output that fails
validation), the full-repair call times out — and the handler returns the
500 timeout error, not the best-effort document from the prior step: every
backend call runs inside the one `try`, so a repair-pass `AbortError` reaches
the same `catch` as an initial-call timeout. -/
theorem C6_counterexample :
    onRequestPostGenerate true (some bodyC6) callsC6 =
      ⟨500, .err (str "Timeout while calling OpenAI. Try again.")⟩ := by
  decide

/-- C6 (amended): a timeout on ANY backend call — initial or repair — aborts
the whole pipeline and surfaces the 500 `Timeout while calling OpenAI. Try
again.` response; no best-effort document is returned for repair-call
timeouts. -/
theorem C6_timeout_always_error :
    ∀ (b : GenBody) (calls : Nat → CallRes),
      trimJS (b.marketplace.getD []) ≠ [] → trimJS (b.brand_name.getD []) ≠ [] →
      trimJS (b.user_prompt.getD []) ≠ [] →
      generatePipeline calls (trimJS (b.brand_name.getD []))
        (if b.variants.getD 1 = 3 then 3 else 1) = .error .abort →
      onRequestPostGenerate true (some b) calls =
        ⟨500, .err (str "Timeout while calling OpenAI. Try again.")⟩ := by
  intro b calls h1 h2 h3 hp
  simp [onRequestPostGenerate, h1, h2, h3, hp]

/-- C6 witness: on `bodyC6`/`callsC6` the pipeline aborts in the repair call
and the amended theorem applies. -/
theorem C6_witness :
    trimJS (bodyC6.marketplace.getD []) ≠ [] ∧
    generatePipeline callsC6 (trimJS (bodyC6.brand_name.getD []))
        (if bodyC6.variants.getD 1 = 3 then 3 else 1) = .error .abort ∧
    onRequestPostGenerate true (some bodyC6) callsC6 =
      ⟨500, .err (str "Timeout while calling OpenAI. Try again.")⟩ := by
  exact ⟨by decide, by decide,
    C6_timeout_always_error bodyC6 callsC6 (by decide) (by decide) (by decide) (by decide)⟩

theorem fixDescriptionLoop_length (calls : Nat → CallRes) (cfg : Cfg) :
    ∀ (vbs : List VB) (k : Nat) (out : List VB) (k' : Nat),
      fixDescriptionLoop calls cfg vbs k = .ok (out, k') → out.length = vbs.length := by
  intro vbs
  induction vbs with
  | nil =>
    intro k out k' h
    simp [fixDescriptionLoop] at h
    simp [h.1]
  | cons vb vbs ih =>
    intro k out k' h
    simp only [fixDescriptionLoop] at h
    split at h
    · cases hrec : fixDescriptionLoop calls cfg vbs k with
      | error e =>
        rw [hrec] at h
        simp only [bind, Bind.bind, Except.bind] at h
        exact absurd h (by simp)
      | ok p =>
        rw [hrec] at h
        simp only [bind, Bind.bind, Except.bind, pure, Pure.pure, Except.pure,
          Except.ok.injEq, Prod.mk.injEq] at h
        obtain ⟨h1, _⟩ := h
        simp [← h1, ih k p.1 p.2 (by rw [hrec])]
    · cases hc : callOpenAI calls k with
      | error e =>
        rw [hc] at h
        simp only [bind, Bind.bind, Except.bind] at h
        exact absurd h (by simp)
      | ok q =>
        rw [hc] at h
        simp only [bind, Bind.bind, Except.bind] at h
        split at h <;>
        · cases hrec : fixDescriptionLoop calls cfg vbs q.2 with
          | error e2 =>
            rw [hrec] at h
            simp only [Functor.map, Except.map] at h
            exact absurd h (by simp)
          | ok p =>
            rw [hrec] at h
            simp only [Functor.map, Except.map, pure, Pure.pure, Except.pure,
              Except.ok.injEq, Prod.mk.injEq] at h
            obtain ⟨h1, _⟩ := h
            simp [← h1, ih _ p.1 p.2 (by rw [hrec])]

theorem callOpenAI_ok {calls : Nat → CallRes} {k : Nat} {q : GenData × Nat}
    (h : callOpenAI calls k = .ok q) : calls k = .ok q.1 ∧ q.2 = k + 1 := by
  unfold callOpenAI at h
  cases hc : calls k with
  | ok d => rw [hc] at h; simp only [Except.ok.injEq] at h; subst h; exact ⟨rfl, rfl⟩
  | abort => rw [hc] at h; simp at h
  | httpErr m => rw [hc] at h; simp at h

theorem countDescBlocks_cons (vb : VB) (l : List VB) :
    countDescBlocks (vb :: l) =
      (if descBlockOf vb.text = [] then 0 else 1) + countDescBlocks l := by
  simp only [countDescBlocks, List.filter_cons]
  split
  · rename_i hp
    rw [if_neg (by simpa using hp)]
    simp
    omega
  · rename_i hp
    rw [if_pos (by simpa using hp)]
    simp

theorem descCallIndex_zero (vbs : List VB) (k : Nat) : descCallIndex vbs k 0 = k := by
  simp [descCallIndex, countDescBlocks]

theorem descCallIndex_succ_present (vb : VB) (vbs : List VB) (k i : Nat)
    (h : descBlockOf vb.text ≠ []) :
    descCallIndex (vb :: vbs) k (i + 1) = descCallIndex vbs (k + 1) i := by
  simp [descCallIndex, List.take_succ_cons, countDescBlocks_cons, h]
  omega

theorem descCallIndex_succ_missing (vb : VB) (vbs : List VB) (k i : Nat)
    (h : descBlockOf vb.text = []) :
    descCallIndex (vb :: vbs) k (i + 1) = descCallIndex vbs k i := by
  simp [descCallIndex, List.take_succ_cons, countDescBlocks_cons, h]

/-- C7: a targeted description repair whose returned replacement has trimmed
length outside `[DESC_MIN, DESC_MAX]` is discarded: the repair loop pushes
the prior block unchanged, so the i-th output block equals the i-th input
block whenever the call made for block i returned an out-of-range
replacement (and trivially when the block has no description section). -/
theorem C7_out_of_range_replacement_kept :
    ∀ (calls : Nat → CallRes) (cfg : Cfg) (vbs : List VB) (k : Nat) (out : List VB)
      (k' : Nat) (i : Nat),
      fixDescriptionLoop calls cfg vbs k = .ok (out, k') →
      (∀ d, calls (descCallIndex vbs k i) = .ok d →
        lenL (trimJS (extractText d)) < cfg.DESC_MIN ∨
          cfg.DESC_MAX < lenL (trimJS (extractText d))) →
      out[i]? = vbs[i]? := by
  intro calls cfg vbs
  induction vbs with
  | nil =>
    intro k out k' i h _
    simp [fixDescriptionLoop] at h
    simp [h.1]
  | cons vb vbs ih =>
    intro k out k' i h hcall
    simp only [fixDescriptionLoop] at h
    split at h
    · rename_i hmiss
      cases hrec : fixDescriptionLoop calls cfg vbs k with
      | error e =>
        rw [hrec] at h
        simp only [bind, Bind.bind, Except.bind] at h
        exact absurd h (by simp)
      | ok p =>
        rw [hrec] at h
        simp only [bind, Bind.bind, Except.bind, pure, Pure.pure, Except.pure,
          Except.ok.injEq, Prod.mk.injEq] at h
        obtain ⟨h1, _⟩ := h
        cases i with
        | zero => simp [← h1]
        | succ i =>
          rw [descCallIndex_succ_missing vb vbs k i hmiss] at hcall
          have := ih k p.1 p.2 i (by rw [hrec]) hcall
          simp [← h1, this]
    · rename_i hpres
      cases hc : callOpenAI calls k with
      | error e =>
        rw [hc] at h
        simp only [bind, Bind.bind, Except.bind] at h
        exact absurd h (by simp)
      | ok q =>
        rw [hc] at h
        simp only [bind, Bind.bind, Except.bind] at h
        obtain ⟨hq1, hq2⟩ := callOpenAI_ok hc
        split at h
        · rename_i hrange
          cases hrec : fixDescriptionLoop calls cfg vbs q.2 with
          | error e2 =>
            rw [hrec] at h
            simp only [Functor.map, Except.map] at h
            exact absurd h (by simp)
          | ok p =>
            rw [hrec] at h
            simp only [Functor.map, Except.map, pure, Pure.pure, Except.pure,
              Except.ok.injEq, Prod.mk.injEq] at h
            obtain ⟨h1, _⟩ := h
            cases i with
            | zero => simp [← h1]
            | succ i =>
              rw [descCallIndex_succ_present vb vbs k i hpres, ← hq2] at hcall
              have := ih q.2 p.1 p.2 i (by rw [hrec]) hcall
              simp [← h1, this]
        · rename_i hrange
          cases i with
          | zero =>
            rw [descCallIndex_zero] at hcall
            have hor := hcall q.1 hq1
            rw [Bool.or_eq_true, decide_eq_true_eq, decide_eq_true_eq] at hrange
            omega
          | succ i =>
            cases hrec : fixDescriptionLoop calls cfg vbs q.2 with
            | error e2 =>
              rw [hrec] at h
              simp only [Functor.map, Except.map] at h
              exact absurd h (by simp)
            | ok p =>
              rw [hrec] at h
              simp only [Functor.map, Except.map, pure, Pure.pure, Except.pure,
                Except.ok.injEq, Prod.mk.injEq] at h
              obtain ⟨h1, _⟩ := h
              rw [descCallIndex_succ_present vb vbs k i hpres, ← hq2] at hcall
              have := ih q.2 p.1 p.2 i (by rw [hrec]) hcall
              simp [← h1, this]

/-- C7 witness: a concrete one-block run whose replacement (length 2, bounds
[3300, 3700]) is discarded and the block kept. -/
theorem C7_witness :
    fixDescriptionLoop (callsRepl (str "zz")) CFG [vbC7] 0 = .ok ([vbC7], 1) ∧
    ([vbC7] : List VB)[0]? = ([vbC7] : List VB)[0]? := by
  refine ⟨by decide, ?_⟩
  exact C7_out_of_range_replacement_kept (callsRepl (str "zz")) CFG [vbC7] 0 [vbC7] 1 0
    (by decide)
    (fun d hd => by
      have hdq : d = ⟨str "zz", []⟩ := by
        simpa [callsRepl] using hd.symm
      subst hdq
      exact Or.inl (by decide))

theorem ne_of_take_ne {a b : L} (n : Nat) (h : a.take n ≠ b.take n) : a ≠ b :=
  fun e => h (by rw [e])

/-- Counterexample to C8 as stated: the brand "Lumina" does not occur as a
whole word in the backend line "luminaglow serum", yet includesBrand flags it
(case-insensitive substring), so the brand-name violation message is emitted. -/
theorem C8_counterexample :
    includesBrand (str "luminaglow serum") (str "Lumina") = true ∧
    brandWholeWordInBackend (str "luminaglow serum") (str "Lumina") = false ∧
    (str "OUTPUT" ++ str ": backend contains brand name (not allowed).") ∈
      backendSectionErrors (str "OUTPUT") CFG (str "Lumina")
        (str "Backend — Generic Keywords (1 ред):\nluminaglow serum") := by
  refine ⟨by decide, by decide, ?_⟩
  decide

/-- C8 (amended): the validator emits the backend brand-name violation iff the
lowercased backend keyword line CONTAINS the lowercased brand as a substring
(includesBrand), not iff the brand occurs as a whole word. -/
theorem C8_brand_violation_iff_substring :
    ∀ (label : L) (cfg : Cfg) (brand blk : L),
      ((label ++ str ": backend contains brand name (not allowed).") ∈
        backendSectionErrors label cfg brand blk) ↔
      includesBrand (parseBackendLine blk) brand = true := by
  intro label cfg brand blk
  constructor
  · intro hmem
    simp only [backendSectionErrors, List.mem_append, or_assoc] at hmem
    rcases hmem with h | h | h | h | h | h | h
    · split at h
      · rw [List.mem_singleton] at h
        simp only [List.append_assoc] at h
        have h2 := List.append_cancel_left h
        exact absurd h2 (ne_of_take_ne 11 (by
          rw [List.take_append_of_le_length (by decide)]
          decide))
      · simp at h
    · split at h
      · rw [List.mem_singleton] at h
        exact absurd (List.append_cancel_left h) (by decide)
      · simp at h
    · split at h
      · rw [List.mem_singleton] at h
        exact absurd (List.append_cancel_left h) (by decide)
      · simp at h
    · split at h
      · rw [List.mem_singleton] at h
        exact absurd (List.append_cancel_left h) (by decide)
      · simp at h
    · split at h
      · assumption
      · simp at h
    · split at h
      · rw [List.mem_singleton] at h
        exact absurd (List.append_cancel_left h) (by decide)
      · simp at h
    · split at h
      · rw [List.mem_singleton] at h
        exact absurd (List.append_cancel_left h) (by decide)
      · simp at h
  · intro hbrand
    simp only [backendSectionErrors, List.mem_append, or_assoc]
    exact Or.inr (Or.inr (Or.inr (Or.inr (Or.inl (by
      rw [if_pos hbrand]
      exact List.mem_singleton_self _)))))

/-- Any member of a list appears at some index of its enumFrom numbering. -/
theorem mem_enumFrom_of_mem {α : Type} :
    ∀ (l : List α) (a : α), a ∈ l → ∀ n, ∃ i, (i, a) ∈ List.enumFrom n l := by
  intro l
  induction l with
  | nil => intro a ha; cases ha
  | cons x xs ih =>
    intro a ha n
    rw [List.mem_cons] at ha
    rcases ha with rfl | ha
    · exact ⟨n, List.mem_cons_self _ _⟩
    · obtain ⟨i, hi⟩ := ih a ha (n + 1)
      exact ⟨i, List.mem_cons_of_mem _ hi⟩

/-- Acceptance by validateOutput forces the per-block error list of every
variant block to be empty. -/
theorem validateOutput_ok_blocks {text brand : L} {cfg : Cfg} {variants : Nat}
    (hok : (validateOutput text brand cfg variants).ok = true) :
    ∀ vb ∈ splitVariantsPhase2 (extractPhase2 (trimJS text)) variants,
      blockErrors cfg brand vb = [] := by
  intro vb hvb
  have hempty : (splitVariantsPhase2 (extractPhase2 (trimJS text)) variants).flatMap
      (blockErrors cfg brand) = [] := by
    by_cases hs : trimJS text = []
    · simp only [validateOutput, if_pos hs] at hok
      cases hok
    · simp only [validateOutput, if_neg hs] at hok
      by_cases hp : extractPhase2 (trimJS text) = []
      · rw [if_pos hp] at hok
        simp [List.isEmpty_iff] at hok
      · rw [if_neg hp] at hok
        rw [List.isEmpty_iff, List.append_eq_nil] at hok
        exact hok.2
  exact List.flatMap_eq_nil_iff.mp hempty vb hvb

/-- C4: whenever validateOutput accepts a document, every parsed title of every
variant block, after stripping its (Chars: N) annotation, has length in
[TITLE_MIN, TITLE_MAX], length at most TITLE_HARD_MAX, and starts with the
brand case-insensitively; the production bounds are 180, 195 and 200. -/
theorem C4_accepted_titles_in_bounds (text brand : L) (cfg : Cfg) (variants : Nat)
    (hok : (validateOutput text brand cfg variants).ok = true) :
    (∀ vb ∈ splitVariantsPhase2 (extractPhase2 (trimJS text)) variants,
       ∀ t ∈ parseTwoTitlesFromTitlesBlock (titlesBlockOf vb.text),
         cfg.TITLE_MIN ≤ lenL (stripCounterSuffix t) ∧
         lenL (stripCounterSuffix t) ≤ cfg.TITLE_MAX ∧
         lenL (stripCounterSuffix t) ≤ cfg.TITLE_HARD_MAX ∧
         startsWithBrand (stripCounterSuffix t) brand = true) ∧
    CFG.TITLE_MIN = 180 ∧ CFG.TITLE_MAX = 195 ∧ CFG.TITLE_HARD_MAX = 200 := by
  refine ⟨?_, rfl, rfl, rfl⟩
  intro vb hvb t ht
  have hb := validateOutput_ok_blocks hok vb hvb
  simp only [blockErrors, List.append_eq_nil] at hb
  obtain ⟨⟨⟨⟨⟨⟨⟨h1, h2⟩, h3⟩, h4⟩, hts⟩, h6⟩, h7⟩, h8⟩ := hb
  simp only [titlesSectionErrors] at hts
  split at hts
  · cases hts
  · have hts2 : ∀ a b, (a, b) ∈ List.enumFrom 0 (parseTwoTitlesFromTitlesBlock (titlesBlockOf vb.text)) →
        titleItemErrors (if vb.label = [] then str "OUTPUT" else vb.label) cfg brand (a + 1) b = [] := by
      simpa [List.enum] using hts
    obtain ⟨i, hi0⟩ := mem_enumFrom_of_mem _ t ht 0
    have hi := hts2 i t hi0
    simp only [titleItemErrors, List.append_eq_nil] at hi
    obtain ⟨⟨⟨⟨g1, g2⟩, g3⟩, g4⟩, g5⟩ := hi
    refine ⟨?_, ?_, ?_, ?_⟩
    · by_contra hlt
      push_neg at hlt
      rw [if_pos (by simp [hlt])] at g1
      cases g1
    · by_contra hgt
      push_neg at hgt
      rw [if_pos (by simp [hgt])] at g1
      cases g1
    · by_contra hgt
      push_neg at hgt
      rw [if_pos (by simp [hgt])] at g1
      cases g1
    · cases hsb : startsWithBrand (stripCounterSuffix t) brand
      · rw [if_pos (by simp [hsb])] at g2
        cases g2
      · rfl

/-- C4 witness: the concrete accepted document docS under cfgS, whose first
parsed title is "Lumina Serum". -/
theorem C4_witness :
    (validateOutput docS brandL cfgS 1).ok = true ∧
    (cfgS.TITLE_MIN ≤ lenL (stripCounterSuffix (str "Lumina Serum")) ∧
     lenL (stripCounterSuffix (str "Lumina Serum")) ≤ cfgS.TITLE_MAX ∧
     lenL (stripCounterSuffix (str "Lumina Serum")) ≤ cfgS.TITLE_HARD_MAX ∧
     startsWithBrand (stripCounterSuffix (str "Lumina Serum")) brandL = true) := by
  refine ⟨by decide, ?_⟩
  have h := C4_accepted_titles_in_bounds docS brandL cfgS 1 (by decide)
  exact h.1 ((splitVariantsPhase2 (extractPhase2 (trimJS docS)) 1).headD ⟨[], []⟩)
    (by decide) (str "Lumina Serum") (by decide)

/-- Characters of the words produced by wordsOfAux come from the input or the
accumulator. -/
theorem mem_wordsOfAux {c : Char} :
    ∀ (s acc : L) (w : L), w ∈ wordsOfAux s acc → c ∈ w → c ∈ s ∨ c ∈ acc := by
  intro s
  induction s with
  | nil =>
    intro acc w hw hc
    simp only [wordsOfAux] at hw
    split at hw
    · cases hw
    · rw [List.mem_singleton] at hw
      subst hw
      exact Or.inr ((List.mem_reverse).mp hc)
  | cons d rest ih =>
    intro acc w hw hc
    simp only [wordsOfAux] at hw
    split at hw
    · split at hw
      · rcases ih [] w hw hc with h | h
        · exact Or.inl (List.mem_cons_of_mem _ h)
        · cases h
      · rw [List.mem_cons] at hw
        rcases hw with rfl | hw
        · exact Or.inr ((List.mem_reverse).mp hc)
        · rcases ih [] w hw hc with h | h
          · exact Or.inl (List.mem_cons_of_mem _ h)
          · cases h
    · rcases ih (d :: acc) w hw hc with h | h
      · exact Or.inl (List.mem_cons_of_mem _ h)
      · rw [List.mem_cons] at h
        rcases h with rfl | h
        · exact Or.inl (List.mem_cons_self _ _)
        · exact Or.inr h

/-- Characters of the words of a string are characters of the string. -/
theorem mem_wordsOf {c : Char} {s w : L} (hw : w ∈ wordsOf s) (hc : c ∈ w) : c ∈ s := by
  rcases mem_wordsOfAux s [] w hw hc with h | h
  · exact h
  · cases h

/-- A character of a joinWith result comes from the separator or some element. -/
theorem mem_joinWith {c : Char} {sep : L} :
    ∀ (ls : List L), c ∈ joinWith sep ls → c ∈ sep ∨ ∃ w ∈ ls, c ∈ w := by
  intro ls
  induction ls with
  | nil => intro h; cases h
  | cons x xs ih =>
    intro h
    cases xs with
    | nil =>
      right
      exact ⟨x, List.mem_cons_self _ _, by simpa [joinWith] using h⟩
    | cons y ys =>
      rw [show joinWith sep (x :: y :: ys) = x ++ sep ++ joinWith sep (y :: ys) from rfl] at h
      rcases List.mem_append.mp h with h1 | h2
      · rcases List.mem_append.mp h1 with h1a | h1b
        · exact Or.inr ⟨x, List.mem_cons_self _ _, h1a⟩
        · exact Or.inl h1b
      · rcases ih h2 with hs | ⟨w, hwmem, hwc⟩
        · exact Or.inl hs
        · exact Or.inr ⟨w, List.mem_cons_of_mem _ hwmem, hwc⟩

/-- collapseSpaces introduces no character other than the space. -/
theorem mem_collapseSpaces {c : Char} {s : L} (h : c ∈ collapseSpaces s) : c = ' ' ∨ c ∈ s := by
  rcases mem_joinWith _ h with hs | ⟨w, hw, hc⟩
  · exact Or.inl ((List.mem_singleton).mp hs)
  · exact Or.inr (mem_wordsOf hw hc)

/-- Every character of an asciiNormalizeBackend output is ASCII. -/
theorem asciiNormalizeBackend_ascii {c : Char} {s : L}
    (h : c ∈ asciiNormalizeBackend s) : c.toNat ≤ 0x7F := by
  simp only [asciiNormalizeBackend] at h
  rcases mem_collapseSpaces h with rfl | h3
  · decide
  · rw [List.mem_map] at h3
    obtain ⟨c2, hc2, hc2e⟩ := h3
    rw [List.mem_map] at hc2
    obtain ⟨c1, _, hc1e⟩ := hc2
    have h2 : c2.toNat ≤ 0x7F := by
      rw [← hc1e]
      split
      · assumption
      · decide
    rw [← hc2e]
    split
    · decide
    · exact h2

/-- Counterexample to C3 as stated: docS is accepted under cfgS although its
raw parsed backend line has UTF-8 byte length 23, above BACKEND_MAX_BYTES = 12;
the validator bounds the NORMALIZED line (here its dot run collapses away). -/
theorem C3_counterexample :
    (validateOutput docS brandL cfgS 1).ok = true ∧
    byteLen (parseBackendLine (backendSectionOf
      ((splitVariantsPhase2 (extractPhase2 (trimJS docS)) 1).headD ⟨[], []⟩).text)) = 23 ∧
    cfgS.BACKEND_MAX_BYTES = 12 := by
  exact ⟨by decide, by decide, rfl⟩

/-- C3 (amended): when validateOutput accepts a document, each variant block's
raw parsed backend line is pure ASCII and free of commas and semicolons, and it
is the byte length of the asciiNormalizeBackend-normalized line (not of the raw
line) that is bounded by BACKEND_MAX_BYTES; the production bound is 250. -/
theorem C3_accepted_backend_normalized_bound (text brand : L) (cfg : Cfg) (variants : Nat)
    (hok : (validateOutput text brand cfg variants).ok = true) :
    (∀ vb ∈ splitVariantsPhase2 (extractPhase2 (trimJS text)) variants,
       (∀ c ∈ parseBackendLine (backendSectionOf vb.text), c.toNat ≤ 0x7F) ∧
       (parseBackendLine (backendSectionOf vb.text)).contains ',' = false ∧
       (parseBackendLine (backendSectionOf vb.text)).contains ';' = false ∧
       byteLen (asciiNormalizeBackend (parseBackendLine (backendSectionOf vb.text))) ≤
         cfg.BACKEND_MAX_BYTES) ∧
    CFG.BACKEND_MAX_BYTES = 250 := by
  refine ⟨?_, rfl⟩
  intro vb hvb
  have hb := validateOutput_ok_blocks hok vb hvb
  simp only [blockErrors, List.append_eq_nil] at hb
  obtain ⟨⟨⟨⟨⟨⟨⟨h1, h2⟩, h3⟩, h4⟩, hts⟩, h6⟩, h7⟩, hbe⟩ := hb
  simp only [backendSectionErrors, List.append_eq_nil] at hbe
  obtain ⟨⟨⟨⟨⟨⟨p1, p2⟩, p3⟩, p4⟩, p5⟩, p6⟩, p7⟩ := hbe
  refine ⟨?_, ?_, ?_, ?_⟩
  · intro c hc
    by_cases hne : asciiNormalizeBackend (parseBackendLine (backendSectionOf vb.text)) =
        parseBackendLine (backendSectionOf vb.text)
    · rw [← hne] at hc
      exact asciiNormalizeBackend_ascii hc
    · by_contra hgt
      push_neg at hgt
      rw [if_pos (by
        rw [Bool.and_eq_true]
        exact ⟨decide_eq_true hne, List.any_eq_true.mpr ⟨c, hc, decide_eq_true hgt⟩⟩)] at p2
      cases p2
  · cases hcm : (parseBackendLine (backendSectionOf vb.text)).contains ','
    · rfl
    · rw [if_pos (by rw [Bool.or_eq_true]; exact Or.inl hcm)] at p6
      cases p6
  · cases hcm : (parseBackendLine (backendSectionOf vb.text)).contains ';'
    · rfl
    · rw [if_pos (by rw [Bool.or_eq_true]; exact Or.inr hcm)] at p6
      cases p6
  · by_contra hgt
    push_neg at hgt
    rw [if_pos (by simp [hgt])] at p1
    cases p1

/-- C3 witness: the concrete accepted document docS under cfgS. -/
theorem C3_witness :
    (validateOutput docS brandL cfgS 1).ok = true ∧
    byteLen (asciiNormalizeBackend (parseBackendLine (backendSectionOf
      ((splitVariantsPhase2 (extractPhase2 (trimJS docS)) 1).headD ⟨[], []⟩).text))) ≤
      cfgS.BACKEND_MAX_BYTES := by
  refine ⟨by decide, ?_⟩
  have h := C3_accepted_backend_normalized_bound docS brandL cfgS 1 (by decide)
  exact (h.1 _ (by decide)).2.2.2

theorem pmatch3_nil (s : L) : pmatch3 [] s = .done s := rfl

theorem pmatch3_cons_nil (a : Atom) (ps : List Atom) : pmatch3 (a :: ps) [] = .more := by
  cases a <;> rfl

theorem pmatch3_lit (c : Char) (ps : List Atom) (d : Char) (s : L) :
    pmatch3 (.lit c :: ps) (d :: s) = if d = c then pmatch3 ps s else .fail := rfl

theorem pmatch3_litCI (c : Char) (ps : List Atom) (d : Char) (s : L) :
    pmatch3 (.litCI c :: ps) (d :: s) = if lowerChar d = c then pmatch3 ps s else .fail := rfl

theorem pmatch3_anyOf (cs : List Char) (ps : List Atom) (d : Char) (s : L) :
    pmatch3 (.anyOf cs :: ps) (d :: s) = if cs.contains d then pmatch3 ps s else .fail := rfl

theorem pmatch3_ws0 (ps : List Atom) (d : Char) (s : L) :
    pmatch3 (.ws0 :: ps) (d :: s) =
      (match (d :: s).dropWhile isJsSpace with
       | [] => M3.more
       | _ :: _ => pmatch3 ps ((d :: s).dropWhile isJsSpace)) := rfl

theorem pmatch3_ws1 (ps : List Atom) (d : Char) (s : L) :
    pmatch3 (.ws1 :: ps) (d :: s) =
      (if isJsSpace d then
        match (d :: s).dropWhile isJsSpace with
        | [] => M3.more
        | _ :: _ => pmatch3 ps ((d :: s).dropWhile isJsSpace)
       else .fail) := rfl

theorem pmatch3_nwn (ps : List Atom) (d : Char) (s : L) :
    pmatch3 (.notWordNext :: ps) (d :: s) =
      (if isWordChar d then .fail else pmatch3 ps (d :: s)) := rfl

theorem pmatchA_nil (s : L) : pmatchA [] s = some s := rfl

theorem pmatchA_lit (c : Char) (ps : List Atom) (d : Char) (s : L) :
    pmatchA (.lit c :: ps) (d :: s) = if d = c then pmatchA ps s else none := rfl

theorem pmatchA_litCI (c : Char) (ps : List Atom) (d : Char) (s : L) :
    pmatchA (.litCI c :: ps) (d :: s) = if lowerChar d = c then pmatchA ps s else none := rfl

theorem pmatchA_anyOf (cs : List Char) (ps : List Atom) (d : Char) (s : L) :
    pmatchA (.anyOf cs :: ps) (d :: s) = if cs.contains d then pmatchA ps s else none := rfl

theorem pmatchA_ws0 (ps : List Atom) (s : L) :
    pmatchA (.ws0 :: ps) s = pmatchA ps (s.dropWhile isJsSpace) := rfl

theorem pmatchA_ws1 (ps : List Atom) (d : Char) (s : L) :
    pmatchA (.ws1 :: ps) (d :: s) =
      (if isJsSpace d then pmatchA ps ((d :: s).dropWhile isJsSpace) else none) := rfl

theorem pmatchA_nwn (ps : List Atom) (d : Char) (s : L) :
    pmatchA (.notWordNext :: ps) (d :: s) =
      (if isWordChar d then none else pmatchA ps (d :: s)) := rfl

theorem canStart_nil (c : Char) : canStart [] c = true := rfl

theorem canStart_lit (d : Char) (ps : List Atom) (c : Char) :
    canStart (.lit d :: ps) c = decide (c = d) := rfl

theorem canStart_litCI (d : Char) (ps : List Atom) (c : Char) :
    canStart (.litCI d :: ps) c = decide (lowerChar c = d) := rfl

theorem canStart_anyOf (ds : List Char) (ps : List Atom) (c : Char) :
    canStart (.anyOf ds :: ps) c = ds.contains c := rfl

theorem canStart_ws0 (ps : List Atom) (c : Char) :
    canStart (.ws0 :: ps) c = (isJsSpace c || canStart ps c) := rfl

theorem canStart_ws1 (ps : List Atom) (c : Char) :
    canStart (.ws1 :: ps) c = isJsSpace c := rfl

theorem canStart_nwn (ps : List Atom) (c : Char) :
    canStart (.notWordNext :: ps) c = (!isWordChar c && canStart ps c) := rfl

/-- Extension stability of the three-valued matcher: a truncated fail stays a
non-match and a truncated done keeps its remainder under any right extension. -/
theorem pmatch3_append :
    ∀ (pat : List Atom) (s t : L),
      (pmatch3 pat s = .fail → pmatchA pat (s ++ t) = none) ∧
      (∀ r, pmatch3 pat s = .done r → pmatchA pat (s ++ t) = some (r ++ t)) := by
  intro pat
  induction pat with
  | nil =>
    intro s t
    constructor
    · intro h
      rw [pmatch3_nil] at h
      cases h
    · intro r h
      rw [pmatch3_nil] at h
      cases h
      rw [pmatchA_nil]
  | cons a ps ih =>
    intro s t
    cases s with
    | nil =>
      constructor
      · intro h
        rw [pmatch3_cons_nil] at h
        cases h
      · intro r h
        rw [pmatch3_cons_nil] at h
        cases h
    | cons d s2 =>
      have hconsapp : (d :: s2) ++ t = d :: (s2 ++ t) := rfl
      cases a with
      | lit c =>
        constructor
        · intro h
          rw [pmatch3_lit] at h
          rw [hconsapp, pmatchA_lit]
          by_cases hdc : d = c
          · rw [if_pos hdc] at h ⊢
            exact (ih s2 t).1 h
          · rw [if_neg hdc]
        · intro r h
          rw [pmatch3_lit] at h
          rw [hconsapp, pmatchA_lit]
          by_cases hdc : d = c
          · rw [if_pos hdc] at h ⊢
            exact (ih s2 t).2 r h
          · rw [if_neg hdc] at h
            cases h
      | litCI c =>
        constructor
        · intro h
          rw [pmatch3_litCI] at h
          rw [hconsapp, pmatchA_litCI]
          by_cases hdc : lowerChar d = c
          · rw [if_pos hdc] at h ⊢
            exact (ih s2 t).1 h
          · rw [if_neg hdc]
        · intro r h
          rw [pmatch3_litCI] at h
          rw [hconsapp, pmatchA_litCI]
          by_cases hdc : lowerChar d = c
          · rw [if_pos hdc] at h ⊢
            exact (ih s2 t).2 r h
          · rw [if_neg hdc] at h
            cases h
      | anyOf cs =>
        constructor
        · intro h
          rw [pmatch3_anyOf] at h
          rw [hconsapp, pmatchA_anyOf]
          by_cases hdc : cs.contains d = true
          · rw [if_pos hdc] at h ⊢
            exact (ih s2 t).1 h
          · rw [if_neg hdc]
        · intro r h
          rw [pmatch3_anyOf] at h
          rw [hconsapp, pmatchA_anyOf]
          by_cases hdc : cs.contains d = true
          · rw [if_pos hdc] at h ⊢
            exact (ih s2 t).2 r h
          · rw [if_neg hdc] at h
            cases h
      | ws0 =>
        have hda : ∀ e es, (d :: s2).dropWhile isJsSpace = e :: es →
            (d :: (s2 ++ t)).dropWhile isJsSpace = (e :: es) ++ t := by
          intro e es hw
          have h1 : (d :: (s2 ++ t)) = (d :: s2) ++ t := rfl
          rw [h1, List.dropWhile_append, hw]
          simp
        constructor
        · intro h
          rw [pmatch3_ws0] at h
          rw [hconsapp, pmatchA_ws0]
          cases hw : (d :: s2).dropWhile isJsSpace with
          | nil => rw [hw] at h; cases h
          | cons e es =>
            rw [hw] at h
            rw [hda e es hw]
            exact (ih (e :: es) t).1 h
        · intro r h
          rw [pmatch3_ws0] at h
          rw [hconsapp, pmatchA_ws0]
          cases hw : (d :: s2).dropWhile isJsSpace with
          | nil => rw [hw] at h; cases h
          | cons e es =>
            rw [hw] at h
            rw [hda e es hw]
            exact (ih (e :: es) t).2 r h
      | ws1 =>
        have hda : ∀ e es, (d :: s2).dropWhile isJsSpace = e :: es →
            (d :: (s2 ++ t)).dropWhile isJsSpace = (e :: es) ++ t := by
          intro e es hw
          have h1 : (d :: (s2 ++ t)) = (d :: s2) ++ t := rfl
          rw [h1, List.dropWhile_append, hw]
          simp
        constructor
        · intro h
          rw [pmatch3_ws1] at h
          rw [hconsapp, pmatchA_ws1]
          by_cases hsp : isJsSpace d = true
          · rw [if_pos hsp] at h ⊢
            cases hw : (d :: s2).dropWhile isJsSpace with
            | nil => rw [hw] at h; cases h
            | cons e es =>
              rw [hw] at h
              rw [hda e es hw]
              exact (ih (e :: es) t).1 h
          · rw [if_neg hsp]
        · intro r h
          rw [pmatch3_ws1] at h
          rw [hconsapp, pmatchA_ws1]
          by_cases hsp : isJsSpace d = true
          · rw [if_pos hsp] at h ⊢
            cases hw : (d :: s2).dropWhile isJsSpace with
            | nil => rw [hw] at h; cases h
            | cons e es =>
              rw [hw] at h
              rw [hda e es hw]
              exact (ih (e :: es) t).2 r h
          · rw [if_neg hsp] at h
            cases h
      | notWordNext =>
        constructor
        · intro h
          rw [pmatch3_nwn] at h
          rw [hconsapp, pmatchA_nwn]
          by_cases hwc : isWordChar d = true
          · rw [if_pos hwc]
          · rw [if_neg hwc] at h
            rw [if_neg hwc, ← hconsapp]
            exact (ih (d :: s2) t).1 h
        · intro r h
          rw [pmatch3_nwn] at h
          rw [hconsapp, pmatchA_nwn]
          by_cases hwc : isWordChar d = true
          · rw [if_pos hwc] at h
            cases h
          · rw [if_neg hwc] at h
            rw [if_neg hwc, ← hconsapp]
            exact (ih (d :: s2) t).2 r h

/-- A fail of the truncated matcher rules the extended string out. -/
theorem pmatch3_fail_append {pat : List Atom} {s : L} (t : L)
    (h : pmatch3 pat s = .fail) : pmatchA pat (s ++ t) = none :=
  (pmatch3_append pat s t).1 h

/-- A done of the truncated matcher carries over to the extended string. -/
theorem pmatch3_done_append {pat : List Atom} {s r : L} (t : L)
    (h : pmatch3 pat s = .done r) : pmatchA pat (s ++ t) = some (r ++ t) :=
  (pmatch3_append pat s t).2 r h

/-- A character that cannot start `pat` makes the match fail at once. -/
theorem canStart_false_none :
    ∀ (pat : List Atom) (c : Char) (s : L), canStart pat c = false → pmatchA pat (c :: s) = none := by
  intro pat
  induction pat with
  | nil =>
    intro c s h
    rw [canStart_nil] at h
    cases h
  | cons a ps ih =>
    intro c s h
    cases a with
    | lit d =>
      rw [canStart_lit, decide_eq_false_iff_not] at h
      rw [pmatchA_lit, if_neg h]
    | litCI d =>
      rw [canStart_litCI, decide_eq_false_iff_not] at h
      rw [pmatchA_litCI, if_neg h]
    | anyOf ds =>
      rw [canStart_anyOf] at h
      rw [pmatchA_anyOf, h]
      rw [if_neg (by simp)]
    | ws0 =>
      rw [canStart_ws0, Bool.or_eq_false_iff] at h
      obtain ⟨h1, h2⟩ := h
      rw [pmatchA_ws0, List.dropWhile_cons, h1]
      simp only [Bool.false_eq_true, if_false]
      exact ih c s h2
    | ws1 =>
      rw [canStart_ws1] at h
      rw [pmatchA_ws1, h]
      rw [if_neg (by simp)]
    | notWordNext =>
      rw [canStart_nwn, Bool.and_eq_false_iff] at h
      rcases h with h | h
      · rw [Bool.not_eq_false'] at h
        rw [pmatchA_nwn, if_pos h]
      · by_cases hwc : isWordChar c = true
        · rw [pmatchA_nwn, if_pos hwc]
        · rw [pmatchA_nwn, if_neg hwc]
          exact ih c s h

theorem failsAll_cons (pat : List Atom) (c : Char) (rest : L) :
    failsAll pat (c :: rest) = ((pmatch3 pat (c :: rest) == .fail) && failsAll pat rest) := rfl

/-- Pointwise form of `noMatchAt` on a cons cell. -/
theorem noMatchAt_cons {pat : List Atom} {c : Char} {s : L}
    (h1 : pmatchB pat (c :: s) = false) (h2 : noMatchAt pat s) : noMatchAt pat (c :: s) := by
  intro i
  cases i with
  | zero => simpa using h1
  | succ j => simpa using h2 j

/-- Prepend a region whose truncated suffixes all fail. -/
theorem noMatchAt_append_fail {pat : List Atom} :
    ∀ (a : L), failsAll pat a = true → ∀ z, noMatchAt pat z → noMatchAt pat (a ++ z) := by
  intro a
  induction a with
  | nil =>
    intro _ z hz
    simpa using hz
  | cons c a2 ih =>
    intro ha z hz
    rw [failsAll_cons, Bool.and_eq_true, beq_iff_eq] at ha
    have h2 := ih ha.2 z hz
    have hA : pmatchA pat ((c :: a2) ++ z) = none := pmatch3_fail_append z ha.1
    have h1 : pmatchB pat (c :: (a2 ++ z)) = false := by
      have : (c :: (a2 ++ z)) = (c :: a2) ++ z := rfl
      rw [this, pmatchB, hA]
      rfl
    exact noMatchAt_cons h1 h2

/-- Prepend a region none of whose characters can start the pattern. -/
theorem noMatchAt_append_safe {pat : List Atom} :
    ∀ (m : L), (∀ c ∈ m, canStart pat c = false) → ∀ z, noMatchAt pat z → noMatchAt pat (m ++ z) := by
  intro m
  induction m with
  | nil =>
    intro _ z hz
    simpa using hz
  | cons c m2 ih =>
    intro hm z hz
    have h2 := ih (fun d hd => hm d (List.mem_cons_of_mem _ hd)) z hz
    have h1 : pmatchB pat (c :: (m2 ++ z)) = false := by
      rw [pmatchB, canStart_false_none pat c (m2 ++ z) (hm c (List.mem_cons_self _ _))]
      rfl
    exact noMatchAt_cons h1 h2

/-- A fully concrete tail with failing suffixes and a non-matching empty
string has no match anywhere. -/
theorem noMatchAt_of_failsAll {pat : List Atom} {b : L}
    (hb : failsAll pat b = true) (h0 : pmatchB pat [] = false) : noMatchAt pat b := by
  have hnil : noMatchAt pat ([] : L) := by
    intro i
    simpa using h0
  have := noMatchAt_append_fail b hb [] hnil
  simpa using this

theorem firstMatchPosAux_cons (pat : List Atom) (c : Char) (rest : L) (i : Nat) :
    firstMatchPosAux pat (c :: rest) i =
      (if pmatchB pat (c :: rest) then some i else firstMatchPosAux pat rest (i + 1)) := rfl

/-- The running index of the scan is a pure offset. -/
theorem firstMatchPosAux_shift (pat : List Atom) :
    ∀ (s : L) (i : Nat), firstMatchPosAux pat s i = (firstMatchPosAux pat s 0).map (· + i) := by
  intro s
  induction s with
  | nil =>
    intro i
    show (if pmatchB pat [] then some i else none) =
      ((if pmatchB pat [] then some 0 else none) : Option Nat).map (· + i)
    split <;> simp
  | cons c rest ih =>
    intro i
    rw [firstMatchPosAux_cons, firstMatchPosAux_cons]
    by_cases hp : pmatchB pat (c :: rest) = true
    · rw [if_pos hp, if_pos hp]
      simp
    · rw [if_neg hp, if_neg hp]
      rw [ih (i + 1), ih (0 + 1)]
      cases firstMatchPosAux pat rest 0 with
      | none => simp
      | some a => simp; omega

/-- Skip a leading region whose truncated suffixes all fail. -/
theorem firstMatchPos_append_fail {pat : List Atom} :
    ∀ (a : L), failsAll pat a = true →
      ∀ z, firstMatchPos pat (a ++ z) = (firstMatchPos pat z).map (· + a.length) := by
  intro a
  induction a with
  | nil =>
    intro _ z
    show firstMatchPos pat z = (firstMatchPos pat z).map (· + 0)
    cases firstMatchPos pat z <;> simp
  | cons c a2 ih =>
    intro ha z
    rw [failsAll_cons, Bool.and_eq_true, beq_iff_eq] at ha
    have hA : pmatchA pat ((c :: a2) ++ z) = none := pmatch3_fail_append z ha.1
    have h1 : pmatchB pat (c :: (a2 ++ z)) = false := by
      have he : (c :: (a2 ++ z)) = (c :: a2) ++ z := rfl
      rw [he, pmatchB, hA]
      rfl
    show firstMatchPosAux pat (c :: (a2 ++ z)) 0 = _
    rw [firstMatchPosAux_cons, if_neg (by rw [h1]; exact Bool.false_ne_true)]
    rw [firstMatchPosAux_shift]
    rw [show firstMatchPosAux pat (a2 ++ z) 0 = firstMatchPos pat (a2 ++ z) from rfl, ih ha.2 z]
    show ((firstMatchPos pat z).map (· + a2.length)).map (· + (0 + 1)) =
      (firstMatchPos pat z).map (· + (c :: a2).length)
    cases firstMatchPos pat z with
    | none => simp
    | some b => simp; omega

/-- Skip a leading region none of whose characters can start the pattern. -/
theorem firstMatchPos_append_safe {pat : List Atom} :
    ∀ (m : L), (∀ c ∈ m, canStart pat c = false) →
      ∀ z, firstMatchPos pat (m ++ z) = (firstMatchPos pat z).map (· + m.length) := by
  intro m
  induction m with
  | nil =>
    intro _ z
    show firstMatchPos pat z = (firstMatchPos pat z).map (· + 0)
    cases firstMatchPos pat z <;> simp
  | cons c m2 ih =>
    intro hm z
    have h1 : pmatchB pat (c :: (m2 ++ z)) = false := by
      rw [pmatchB, canStart_false_none pat c (m2 ++ z) (hm c (List.mem_cons_self _ _))]
      rfl
    show firstMatchPosAux pat (c :: (m2 ++ z)) 0 = _
    rw [firstMatchPosAux_cons, if_neg (by rw [h1]; exact Bool.false_ne_true)]
    rw [firstMatchPosAux_shift]
    rw [show firstMatchPosAux pat (m2 ++ z) 0 = firstMatchPos pat (m2 ++ z) from rfl,
      ih (fun d hd => hm d (List.mem_cons_of_mem _ hd)) z]
    show ((firstMatchPos pat z).map (· + m2.length)).map (· + (0 + 1)) =
      (firstMatchPos pat z).map (· + (c :: m2).length)
    cases firstMatchPos pat z with
    | none => simp
    | some b => simp; omega

/-- A match right here puts the first match at position zero. -/
theorem firstMatchPos_of_pmatchB {pat : List Atom} {s : L}
    (h : pmatchB pat s = true) : firstMatchPos pat s = some 0 := by
  cases s with
  | nil =>
    show (if pmatchB pat [] then some 0 else none) = some 0
    rw [if_pos h]
  | cons c rest =>
    show firstMatchPosAux pat (c :: rest) 0 = some 0
    rw [firstMatchPosAux_cons, if_pos h]

/-- A truncated done yields a match of the extended string. -/
theorem pmatchB_append_done {pat : List Atom} {a r : L} (t : L)
    (h : pmatch3 pat a = .done r) : pmatchB pat (a ++ t) = true := by
  rw [pmatchB, pmatch3_done_append t h]
  rfl

/-- A string with no match anywhere scans to `none`. -/
theorem noMatchAt_firstMatchPos {pat : List Atom} :
    ∀ (s : L), noMatchAt pat s → firstMatchPos pat s = none := by
  intro s
  induction s with
  | nil =>
    intro h
    show (if pmatchB pat [] then some 0 else none) = none
    rw [if_neg (by rw [show pmatchB pat [] = false from by simpa using h 0]; exact Bool.false_ne_true)]
  | cons c rest ih =>
    intro h
    show firstMatchPosAux pat (c :: rest) 0 = none
    rw [firstMatchPosAux_cons,
      if_neg (by rw [show pmatchB pat (c :: rest) = false from by simpa using h 0]; exact Bool.false_ne_true)]
    rw [firstMatchPosAux_shift]
    rw [show firstMatchPosAux pat rest 0 = firstMatchPos pat rest from rfl,
      ih (fun i => by simpa using h (i + 1))]
    rfl

/-- The VARIANT scan returns nothing on a string with no match anywhere. -/
theorem findVariantMarksAux_nil :
    ∀ (s : L) (i : Nat) (prev : Option Char), noMatchAt patVariantTail s →
      findVariantMarksAux s i prev = [] := by
  intro s
  induction s with
  | nil =>
    intro i prev _
    rfl
  | cons c rest ih =>
    intro i prev h
    have h0 : pmatchB patVariantTail (c :: rest) = false := by simpa using h 0
    show (if (match prev with | none => true | some p => !isWordChar p) &&
            pmatchB patVariantTail (c :: rest) then [i] else []) ++
         findVariantMarksAux rest (i + 1) (some c) = []
    rw [h0, Bool.and_false, if_neg Bool.false_ne_true, List.nil_append]
    exact ih (i + 1) (some c) (fun j => by simpa using h (j + 1))

/-- Dropping leading whitespace keeps a non-space head. -/
theorem trimStartJS_cons_of {c : Char} (hc : isJsSpace c = false) (s : L) :
    trimStartJS (c :: s) = c :: s := by
  rw [trimStartJS, List.dropWhile_cons, hc]
  rfl

/-- A string holding a non-space character does not right-trim to empty. -/
theorem trimEndJS_ne_nil {s : L} {c : Char} (hmem : c ∈ s) (hc : isJsSpace c = false) :
    trimEndJS s ≠ [] := by
  rw [trimEndJS]
  intro h
  have h2 : s.reverse.dropWhile isJsSpace = [] := by
    have := congrArg List.reverse h
    simpa using this
  have h3 := List.dropWhile_eq_nil_iff.mp h2 c (by simpa using hmem)
  rw [hc] at h3
  cases h3

/-- Right-trimming stops inside the right block when it ends clean. -/
theorem trimEndJS_append {s t : L} (ht : trimEndJS t ≠ []) :
    trimEndJS (s ++ t) = s ++ trimEndJS t := by
  have hne : (t.reverse.dropWhile isJsSpace).isEmpty = false := by
    rw [List.isEmpty_eq_false]
    intro h2
    exact ht (by rw [trimEndJS, h2]; rfl)
  rw [trimEndJS, List.reverse_append, List.dropWhile_append, hne]
  rw [if_neg Bool.false_ne_true, List.reverse_append, List.reverse_reverse]
  rfl

/-- Right-trimming removes a final all-whitespace block. -/
theorem trimEndJS_append_ws {t : L} (ht : ∀ c ∈ t, isJsSpace c = true) (s : L) :
    trimEndJS (s ++ t) = trimEndJS s := by
  have h2 : t.reverse.dropWhile isJsSpace = [] :=
    List.dropWhile_eq_nil_iff.mpr (fun x hx => ht x (by simpa using hx))
  rw [trimEndJS, List.reverse_append, List.dropWhile_append, h2]
  rfl

/-- A skeleton string with a non-space head and a clean nonempty constant tail
is fixed by trim. -/
theorem trimJS_skeleton {c : Char} (hc : isJsSpace c = false) (x t : L)
    (ht : trimEndJS t = t) (htne : t ≠ []) :
    trimJS (c :: x ++ t) = c :: x ++ t := by
  rw [trimJS, List.cons_append, trimStartJS_cons_of hc (x ++ t), ← List.cons_append,
    trimEndJS_append (by rw [ht]; exact htne), ht]

/-- Trim keeps a string with a non-space head nonempty. -/
theorem trimJS_cons_ne_nil {c : Char} (hc : isJsSpace c = false) (w : L) :
    trimJS (c :: w) ≠ [] := by
  rw [trimJS, trimStartJS_cons_of hc]
  exact trimEndJS_ne_nil (List.mem_cons_self c w) hc

theorem splitChAux_ne_nil (sep : Char) : ∀ (s acc : L), splitChAux sep s acc ≠ [] := by
  intro s
  induction s with
  | nil => intro acc; simp [splitChAux]
  | cons c rest ih =>
    intro acc
    rw [splitChAux]
    split
    · simp
    · exact ih (c :: acc)

/-- Joining a split is the identity (with the accumulator made explicit). -/
theorem joinWith_splitChAux (sep : Char) :
    ∀ (s acc : L), joinWith [sep] (splitChAux sep s acc) = acc.reverse ++ s := by
  intro s
  induction s with
  | nil =>
    intro acc
    show joinWith [sep] [acc.reverse] = acc.reverse ++ []
    simp [joinWith]
  | cons c rest ih =>
    intro acc
    rw [splitChAux]
    split
    · next hc =>
      cases hsplit : splitChAux sep rest [] with
      | nil => exact absurd hsplit (splitChAux_ne_nil sep rest [])
      | cons y ys =>
        rw [joinWith_cons_cons, ← hsplit, ih []]
        subst hc
        simp
    · next hc =>
      rw [ih (c :: acc)]
      simp

/-- `split('\n')` then `join('\n')` is the identity. -/
theorem joinLines_splitLines (s : L) : joinLines (splitLines s) = s := by
  simpa using joinWith_splitChAux '\n' s []

/-- Splitting at a separator-free leading line. -/
theorem splitChAux_append_cons (sep : Char) :
    ∀ (a : L), (∀ c ∈ a, c ≠ sep) → ∀ (b acc : L),
      splitChAux sep (a ++ sep :: b) acc = (acc.reverse ++ a) :: splitChAux sep b [] := by
  intro a
  induction a with
  | nil =>
    intro _ b acc
    show splitChAux sep (sep :: b) acc = (acc.reverse ++ []) :: splitChAux sep b []
    rw [splitChAux, if_pos rfl]
    simp
  | cons c a2 ih =>
    intro ha b acc
    show splitChAux sep (c :: (a2 ++ sep :: b)) acc = _
    rw [splitChAux, if_neg (ha c (List.mem_cons_self _ _))]
    rw [ih (fun d hd => ha d (List.mem_cons_of_mem _ hd)) b (c :: acc)]
    simp

/-- `split` at a separator-free leading line (top form). -/
theorem splitCh_append_cons (sep : Char) (a : L) (ha : ∀ c ∈ a, c ≠ sep) (b : L) :
    splitCh sep (a ++ sep :: b) = a :: splitCh sep b := by
  have := splitChAux_append_cons sep a ha b []
  simpa [splitCh] using this

/-- A separator-free string splits to itself. -/
theorem splitCh_no_sep (sep : Char) : ∀ (a : L), (∀ c ∈ a, c ≠ sep) →
    splitCh sep a = [a] := by
  intro a ha
  have haux : ∀ (s acc : L), (∀ c ∈ s, c ≠ sep) → splitChAux sep s acc = [acc.reverse ++ s] := by
    intro s
    induction s with
    | nil => intro acc _; simp [splitChAux]
    | cons c s2 ih =>
      intro acc hs
      rw [splitChAux, if_neg (hs c (List.mem_cons_self _ _))]
      rw [ih (c :: acc) (fun d hd => hs d (List.mem_cons_of_mem _ hd))]
      simp
  simpa [splitCh] using haux a [] ha

theorem indexOfSubAux_cons (pat : L) (c : Char) (s : L) (i : Nat) :
    indexOfSubAux pat (c :: s) i =
      (if pat.isPrefixOf (c :: s) then some i else indexOfSubAux pat s (i + 1)) := rfl

/-- The running index of the substring scan is a pure offset. -/
theorem indexOfSubAux_shift (pat : L) :
    ∀ (s : L) (i : Nat), indexOfSubAux pat s i = (indexOfSubAux pat s 0).map (· + i) := by
  intro s
  induction s with
  | nil =>
    intro i
    show (if pat = [] then some i else none) =
      ((if pat = [] then some 0 else none) : Option Nat).map (· + i)
    split <;> simp
  | cons c rest ih =>
    intro i
    rw [indexOfSubAux_cons, indexOfSubAux_cons]
    by_cases hp : pat.isPrefixOf (c :: rest) = true
    · rw [if_pos hp, if_pos hp]
      simp
    · rw [if_neg hp, if_neg hp]
      rw [ih (i + 1), ih (0 + 1)]
      cases indexOfSubAux pat rest 0 with
      | none => simp
      | some a => simp; omega

/-- One scan step on a non-prefix head. -/
theorem indexOfSub_cons_false {pat : L} {c : Char} {s : L}
    (h : pat.isPrefixOf (c :: s) = false) :
    indexOfSub (c :: s) pat = (indexOfSub s pat).map (· + 1) := by
  show indexOfSubAux pat (c :: s) 0 = _
  rw [indexOfSubAux_cons, if_neg (by rw [h]; exact Bool.false_ne_true)]
  rw [indexOfSubAux_shift]
  rfl

/-- A prefix occurrence sits at index zero. -/
theorem indexOfSub_at_head {pat s : L} (h : pat.isPrefixOf s = true) :
    indexOfSub s pat = some 0 := by
  cases s with
  | nil =>
    have : pat = [] := List.prefix_nil.mp (List.isPrefixOf_iff_prefix.mp h)
    show (if pat = [] then some 0 else none) = some 0
    rw [if_pos this]
  | cons c rest =>
    show indexOfSubAux pat (c :: rest) 0 = some 0
    rw [indexOfSubAux_cons, if_pos h]

/-- The prefix test only reads the first `pat.length` characters. -/
theorem isPrefixOf_append_of_le {pat s1 : L} (t : L) (hle : pat.length ≤ s1.length) :
    pat.isPrefixOf (s1 ++ t) = pat.isPrefixOf s1 := by
  by_cases h : pat.isPrefixOf s1 = true
  · rw [h]
    exact List.isPrefixOf_iff_prefix.mpr
      ((List.isPrefixOf_iff_prefix.mp h).trans (List.prefix_append s1 t))
  · rw [Bool.eq_false_iff.mpr h, Bool.eq_false_iff]
    intro h2
    apply h
    have hp := List.isPrefixOf_iff_prefix.mp h2
    have he : pat = (s1 ++ t).take pat.length := List.prefix_iff_eq_take.mp hp
    rw [List.take_append_of_le_length hle] at he
    exact List.isPrefixOf_iff_prefix.mpr (he ▸ List.take_prefix pat.length s1)

/-- A mismatch within the first characters refutes the prefix test. -/
theorem isPrefixOf_false_of_take_ne {pat s : L} (n : Nat) (hn : n ≤ pat.length)
    (h : pat.take n ≠ s.take n) : pat.isPrefixOf s = false := by
  rw [Bool.eq_false_iff]
  intro h2
  apply h
  have he : pat = s.take pat.length :=
    List.prefix_iff_eq_take.mp (List.isPrefixOf_iff_prefix.mp h2)
  rw [he, List.take_take, Nat.min_eq_left hn]

/-- An occurrence fitting inside the left block survives right extension. -/
theorem indexOfSub_append {pat : L} :
    ∀ (a : L) (j : Nat), indexOfSub a pat = some j → j + pat.length ≤ a.length →
      ∀ t, indexOfSub (a ++ t) pat = some j := by
  intro a
  induction a with
  | nil =>
    intro j h hle t
    by_cases hp : pat = []
    · subst hp
      have hj : j = 0 := by
        have : (if ([] : L) = [] then some 0 else none) = some j := h
        simpa using this.symm
      subst hj
      exact indexOfSub_at_head (by
        exact List.isPrefixOf_iff_prefix.mpr List.nil_prefix)
    · exact absurd h (by
        show ¬(if pat = [] then some 0 else none) = some j
        rw [if_neg hp]
        simp)
  | cons c a2 ih =>
    intro j h hle t
    rw [show indexOfSub (c :: a2) pat = indexOfSubAux pat (c :: a2) 0 from rfl,
      indexOfSubAux_cons] at h
    by_cases hp : pat.isPrefixOf (c :: a2) = true
    · rw [if_pos hp] at h
      have hj : j = 0 := by simpa using h.symm
      subst hj
      have hple : pat.length ≤ (c :: a2).length := by simpa using hle
      have : pat.isPrefixOf ((c :: a2) ++ t) = true := by
        rw [isPrefixOf_append_of_le t hple, hp]
      rw [List.cons_append] at this
      rw [List.cons_append]
      exact indexOfSub_at_head this
    · rw [if_neg hp] at h
      rw [indexOfSubAux_shift,
        show indexOfSubAux pat a2 0 = indexOfSub a2 pat from rfl] at h
      cases hrec : indexOfSub a2 pat with
      | none => rw [hrec] at h; cases h
      | some m =>
        rw [hrec] at h
        have hj : j = m + 1 := by simpa using h.symm
        subst hj
        have hm : m + pat.length ≤ a2.length := by
          have : m + 1 + pat.length ≤ a2.length + 1 := by simpa using hle
          omega
        have hrec2 := ih m hrec hm t
        have hple : pat.length ≤ (c :: a2).length := by
          simp only [List.length_cons]
          omega
        have hpf2 : pat.isPrefixOf (c :: (a2 ++ t)) = false := by
          rw [← List.cons_append, isPrefixOf_append_of_le t hple]
          exact Bool.eq_false_iff.mpr hp
        rw [List.cons_append, indexOfSub_cons_false hpf2, hrec2]
        rfl

/-- `indexOf(c, i)` as a shifted plain search on the dropped string. -/
theorem indexOfChFrom_eq (s : L) (c : Char) (i : Nat) :
    indexOfChFrom s c i = (indexOfSub (s.drop i) [c]).map (· + i) := by
  rw [indexOfChFrom, indexOfSubAux_shift]
  rfl

/-- Characters safe for a description body cannot start any scanning pattern. -/
theorem descSafe_canStart {c : Char} (hc : descSafeChar c = true) :
    canStart patPhase2full c = false ∧ canStart patVariantTail c = false ∧
    canStart patVariantLoose c = false ∧ canStart patTitles2 c = false ∧
    canStart patBulletPoints c = false ∧ canStart patBulletPoints5 c = false ∧
    canStart patProdDesc c = false ∧ canStart patBackendWord c = false ∧
    canStart patBackendDash c = false ∧ canStart patActiveIngredients c = false := by
  rw [descSafeChar, Bool.and_eq_true] at hc
  have h1 := hc.1
  rw [Bool.not_eq_true'] at h1
  simp only [List.contains_cons, Bool.or_eq_false_iff, beq_eq_false_iff_ne] at h1
  obtain ⟨hp, hb, ht, ha, hcc, hv, hf, -⟩ := h1
  refine ⟨?_, ?_, ?_, ?_, ?_, ?_, ?_, ?_, ?_, ?_⟩
  · rw [show canStart patPhase2full c = decide (lowerChar c = 'ф') from rfl]
    exact decide_eq_false hf
  · rw [show canStart patVariantTail c = decide (lowerChar c = 'v') from rfl]
    exact decide_eq_false hv
  · rw [show canStart patVariantLoose c = decide (lowerChar c = 'v') from rfl]
    exact decide_eq_false hv
  · rw [show canStart patTitles2 c = decide (lowerChar c = 't') from rfl]
    exact decide_eq_false ht
  · rw [show canStart patBulletPoints c = decide (lowerChar c = 'b') from rfl]
    exact decide_eq_false hb
  · rw [show canStart patBulletPoints5 c = decide (lowerChar c = 'b') from rfl]
    exact decide_eq_false hb
  · rw [show canStart patProdDesc c = decide (lowerChar c = 'p') from rfl]
    exact decide_eq_false hp
  · rw [show canStart patBackendWord c = decide (lowerChar c = 'b') from rfl]
    exact decide_eq_false hb
  · rw [show canStart patBackendDash c = decide (lowerChar c = 'b') from rfl]
    exact decide_eq_false hb
  · rw [show canStart patActiveIngredients c = decide (lowerChar c = 'a') from rfl]
    exact decide_eq_false ha

/-- Left-trim is the identity on strings with a non-space head. -/
theorem trimStartJS_append_of {a : L} (ha : trimStartJS a = a) (hane : a ≠ []) (b : L) :
    trimStartJS (a ++ b) = a ++ b := by
  cases a with
  | nil => exact absurd rfl hane
  | cons c a2 =>
    have hc : isJsSpace c = false := by
      by_contra hcc
      rw [Bool.not_eq_false] at hcc
      have h2 : trimStartJS (c :: a2) = trimStartJS a2 := by
        rw [trimStartJS, trimStartJS, List.dropWhile_cons, hcc]
        rfl
      rw [h2] at ha
      have hlen : (trimStartJS a2).length ≤ a2.length := (List.dropWhile_sublist _).length_le
      rw [ha] at hlen
      simp at hlen
    rw [List.cons_append]
    exact trimStartJS_cons_of hc (a2 ++ b)

/-- Right-trim is the identity before a clean nonempty constant tail. -/
theorem trimEndJS_append_of {b : L} (hb : trimEndJS b = b) (hbne : b ≠ []) (a : L) :
    trimEndJS (a ++ b) = a ++ b := by
  rw [trimEndJS_append (by rw [hb]; exact hbne), hb]

/-- Trim is the identity on a clean-headed, clean-tailed sandwich. -/
theorem trimJS_wrap {a b : L} (x : L) (ha1 : trimStartJS a = a) (hane : a ≠ [])
    (hb1 : trimEndJS b = b) (hbne : b ≠ []) :
    trimJS (a ++ (x ++ b)) = a ++ (x ++ b) := by
  rw [trimJS, trimStartJS_append_of ha1 hane]
  rw [show a ++ (x ++ b) = (a ++ x) ++ b from by simp [List.append_assoc]]
  rw [trimEndJS_append_of hb1 hbne]

/-- The phase-2 marker of the canonical C5 document sits at index 7. -/
theorem c5_firstMatch_phase2 (mid : L) :
    firstMatchPos patPhase2full (c5A ++ (c5B ++ (c5C1 ++ (c5C2 ++ (c5D ++ (mid ++ c5Post)))))) =
      some 7 := by
  rw [firstMatchPos_append_fail c5A (by decide)]
  rw [firstMatchPos_of_pmatchB (pmatchB_append_done _
    (show pmatch3 patPhase2full c5B = M3.done (str "\n") from by decide))]
  rfl

/-- The canonical C5 document decomposed at its named skeleton blocks. -/
theorem docC5_decomp (mid : L) :
    docC5 mid = c5A ++ (c5B ++ (c5C1 ++ (c5C2 ++ (c5D ++ (mid ++ c5Post))))) := by
  rw [docC5, show c5Pre = c5A ++ c5B ++ c5C1 ++ c5C2 ++ c5D from by decide]
  simp [List.append_assoc]

/-- `extractPhase2` of the canonical C5 document drops exactly the leading
phase-1 line. -/
theorem c5_extractPhase2 (mid : L) :
    extractPhase2 (docC5 mid) = c5B ++ (c5C1 ++ (c5C2 ++ (c5D ++ (mid ++ c5Post)))) := by
  rw [extractPhase2, docC5_decomp mid, c5_firstMatch_phase2 mid]
  show trimJS (List.drop 7 (c5A ++ (c5B ++ (c5C1 ++ (c5C2 ++ (c5D ++ (mid ++ c5Post))))))) =
    c5B ++ (c5C1 ++ (c5C2 ++ (c5D ++ (mid ++ c5Post))))
  rw [show (7 : Nat) = c5A.length from rfl, List.drop_left]
  rw [show c5B ++ (c5C1 ++ (c5C2 ++ (c5D ++ (mid ++ c5Post)))) =
      c5B ++ ((c5C1 ++ (c5C2 ++ (c5D ++ mid))) ++ c5Post) from by simp [List.append_assoc]]
  rw [trimJS_wrap _ (by decide) (by decide) (by decide) (by decide)]

/-- No VARIANT marker occurs in the canonical C5 block. -/
theorem c5_noVariantTail (mid : L) (hmid : ∀ c ∈ mid, descSafeChar c = true) :
    noMatchAt patVariantTail (c5C1 ++ (c5C2 ++ (c5D ++ (mid ++ c5Post)))) := by
  refine noMatchAt_append_fail c5C1 (by decide) _
    (noMatchAt_append_fail c5C2 (by decide) _
      (noMatchAt_append_fail c5D (by decide) _
        (noMatchAt_append_safe mid ?_ _
          (noMatchAt_of_failsAll (by decide) (by decide)))))
  intro c hc
  exact (descSafe_canStart (hmid c hc)).2.1

/-- Splitting the canonical C5 phase-2 text yields one unlabeled block. -/
theorem c5_vBlocks (mid : L) (hmid : ∀ c ∈ mid, descSafeChar c = true) :
    splitVariantsPhase2 (extractPhase2 (docC5 mid)) 1 = [⟨[], c5Block mid⟩] := by
  rw [c5_extractPhase2 mid]
  rw [splitVariantsPhase2]
  have htrim : trimJS (c5B ++ (c5C1 ++ (c5C2 ++ (c5D ++ (mid ++ c5Post))))) =
      c5B ++ (c5C1 ++ (c5C2 ++ (c5D ++ (mid ++ c5Post)))) := by
    rw [show c5B ++ (c5C1 ++ (c5C2 ++ (c5D ++ (mid ++ c5Post)))) =
        c5B ++ ((c5C1 ++ (c5C2 ++ (c5D ++ mid))) ++ c5Post) from by simp [List.append_assoc]]
    exact trimJS_wrap _ (by decide) (by decide) (by decide) (by decide)
  rw [htrim]
  have hsplit : splitLines (c5B ++ (c5C1 ++ (c5C2 ++ (c5D ++ (mid ++ c5Post))))) =
      c5Bline :: splitLines (c5C1 ++ (c5C2 ++ (c5D ++ (mid ++ c5Post)))) := by
    rw [show c5B ++ (c5C1 ++ (c5C2 ++ (c5D ++ (mid ++ c5Post)))) =
        c5Bline ++ '\n' :: (c5C1 ++ (c5C2 ++ (c5D ++ (mid ++ c5Post)))) from by
      rw [show c5B = c5Bline ++ ['\n'] from by decide]
      simp [List.append_assoc]]
    exact splitCh_append_cons '\n' c5Bline (by decide) _
  rw [hsplit]
  rw [show (c5Bline :: splitLines (c5C1 ++ (c5C2 ++ (c5D ++ (mid ++ c5Post))))).drop 1 =
    splitLines (c5C1 ++ (c5C2 ++ (c5D ++ (mid ++ c5Post)))) from rfl]
  rw [show joinLines (splitLines (c5C1 ++ (c5C2 ++ (c5D ++ (mid ++ c5Post))))) =
    c5C1 ++ (c5C2 ++ (c5D ++ (mid ++ c5Post))) from joinLines_splitLines _]
  have htrim2 : trimJS (c5C1 ++ (c5C2 ++ (c5D ++ (mid ++ c5Post)))) =
      c5C1 ++ (c5C2 ++ (c5D ++ (mid ++ c5Post))) := by
    rw [show c5C1 ++ (c5C2 ++ (c5D ++ (mid ++ c5Post))) =
        c5C1 ++ ((c5C2 ++ (c5D ++ mid)) ++ c5Post) from by simp [List.append_assoc]]
    exact trimJS_wrap _ (by decide) (by decide) (by decide) (by decide)
  rw [htrim2]
  rw [show findVariantMarks (c5C1 ++ (c5C2 ++ (c5D ++ (mid ++ c5Post)))) = [] from
    findVariantMarksAux_nil _ 0 none (c5_noVariantTail mid hmid)]
  rw [if_pos rfl]
  rfl

theorem c5Post_decomp : c5Post = ['\n'] ++ (c5F ++ c5G) := by decide

/-- Scan positions of the four section patterns in the canonical C5 block. -/
theorem c5_scan_titles (mid : L) :
    firstMatchPos patTitles2 (c5Block mid) = some 0 := by
  rw [c5Block]
  exact firstMatchPos_of_pmatchB (pmatchB_append_done _
    (show pmatch3 patTitles2 c5C1 = M3.done (str " варианта):\n1. Lumina Serum\n") from by decide))

theorem c5_scan_bulletPoints (mid : L) :
    firstMatchPos patBulletPoints (c5Block mid) = some c5C1.length := by
  rw [c5Block, firstMatchPos_append_fail c5C1 (by decide)]
  rw [firstMatchPos_of_pmatchB (pmatchB_append_done _
    (show pmatch3 patBulletPoints c5C2 = M3.done (str " (5):\n• **La**: great serum\n") from by decide))]
  rfl

theorem c5_scan_bulletPoints5 (mid : L) :
    firstMatchPos patBulletPoints5 (c5Block mid) = some c5C1.length := by
  rw [c5Block, firstMatchPos_append_fail c5C1 (by decide)]
  rw [firstMatchPos_of_pmatchB (pmatchB_append_done _
    (show pmatch3 patBulletPoints5 c5C2 = M3.done (str "\n• **La**: great serum\n") from by decide))]
  rfl

theorem c5_scan_prodDesc (mid : L) :
    firstMatchPos patProdDesc (c5Block mid) = some (c5C1.length + c5C2.length) := by
  rw [c5Block, firstMatchPos_append_fail c5C1 (by decide),
    firstMatchPos_append_fail c5C2 (by decide)]
  rw [firstMatchPos_of_pmatchB (pmatchB_append_done _
    (show pmatch3 patProdDesc c5D = M3.done (str " (Chars: 20)\n") from by decide))]
  show some ((0 + c5C2.length) + c5C1.length) = some (c5C1.length + c5C2.length)
  rw [Nat.zero_add, Nat.add_comm]

theorem c5_scan_backendWord (mid : L) (hmid : ∀ c ∈ mid, descSafeChar c = true) :
    firstMatchPos patBackendWord (c5Block mid) =
      some (c5C1.length + (c5C2.length + (c5D.length + (mid.length + 1)))) := by
  rw [c5Block, firstMatchPos_append_fail c5C1 (by decide),
    firstMatchPos_append_fail c5C2 (by decide),
    firstMatchPos_append_fail c5D (by decide),
    firstMatchPos_append_safe mid (fun c hc => (descSafe_canStart (hmid c hc)).2.2.2.2.2.2.2.1)]
  rw [c5Post_decomp, firstMatchPos_append_fail ['\n'] (by decide)]
  rw [firstMatchPos_of_pmatchB (pmatchB_append_done _
    (show pmatch3 patBackendWord c5F = M3.done (str " — Generic Keywords (1 ред) (Bytes: 7):\nkw1 kw2\n") from by decide))]
  show some (((((0 + 1) + mid.length) + c5D.length) + c5C2.length) + c5C1.length) = _
  rw [Option.some.injEq]
  omega

theorem c5_scan_backendDash (mid : L) (hmid : ∀ c ∈ mid, descSafeChar c = true) :
    firstMatchPos patBackendDash (c5Block mid) =
      some (c5C1.length + (c5C2.length + (c5D.length + (mid.length + 1)))) := by
  rw [c5Block, firstMatchPos_append_fail c5C1 (by decide),
    firstMatchPos_append_fail c5C2 (by decide),
    firstMatchPos_append_fail c5D (by decide),
    firstMatchPos_append_safe mid (fun c hc => (descSafe_canStart (hmid c hc)).2.2.2.2.2.2.2.2.1)]
  rw [c5Post_decomp, firstMatchPos_append_fail ['\n'] (by decide)]
  rw [firstMatchPos_of_pmatchB (pmatchB_append_done _
    (show pmatch3 patBackendDash c5F = M3.done (str " Generic Keywords (1 ред) (Bytes: 7):\nkw1 kw2\n") from by decide))]
  show some (((((0 + 1) + mid.length) + c5D.length) + c5C2.length) + c5C1.length) = _
  rw [Option.some.injEq]
  omega

/-- Dropping up to the backend marker leaves the constant backend tail. -/
theorem c5_drop_backend (mid : L) :
    (c5Block mid).drop (c5C1.length + (c5C2.length + (c5D.length + (mid.length + 1)))) =
      c5F ++ c5G := by
  rw [c5Block, List.drop_append, List.drop_append, List.drop_append, List.drop_append]
  rw [c5Post_decomp]
  rfl

/-- The titles section of the canonical C5 block is a fixed string. -/
theorem c5_titlesBlock (mid : L) :
    titlesBlockOf (c5Block mid) = str "Titles (2 варианта):\n1. Lumina Serum" := by
  rw [titlesBlockOf, extractSection]
  simp only [findRegexIndex]
  rw [c5_scan_titles mid]
  show (match firstMatchPos patBulletPoints ((c5Block mid).drop 0) with
    | none => trimJS ((c5Block mid).drop 0)
    | some e => trimJS (((c5Block mid).drop 0).take e)) = _
  rw [List.drop_zero, c5_scan_bulletPoints mid]
  show trimJS ((c5Block mid).take c5C1.length) = _
  rw [c5Block, List.take_left]
  decide

/-- The bullets section of the canonical C5 block is a fixed string. -/
theorem c5_bulletsBlock (mid : L) :
    bulletsBlockOf (c5Block mid) = str "Bullet Points (5):\n• **La**: great serum" := by
  rw [bulletsBlockOf, extractSection]
  simp only [findRegexIndex]
  rw [c5_scan_bulletPoints5 mid]
  show (match firstMatchPos patProdDesc ((c5Block mid).drop c5C1.length) with
    | none => trimJS ((c5Block mid).drop c5C1.length)
    | some e => trimJS (((c5Block mid).drop c5C1.length).take e)) = _
  have hdrop : (c5Block mid).drop c5C1.length = c5C2 ++ (c5D ++ (mid ++ c5Post)) := by
    rw [c5Block, List.drop_left]
  rw [hdrop]
  have hscan : firstMatchPos patProdDesc (c5C2 ++ (c5D ++ (mid ++ c5Post))) = some c5C2.length := by
    rw [firstMatchPos_append_fail c5C2 (by decide)]
    rw [firstMatchPos_of_pmatchB (pmatchB_append_done _
      (show pmatch3 patProdDesc c5D = M3.done (str " (Chars: 20)\n") from by decide))]
    rfl
  rw [hscan]
  show trimJS ((c5C2 ++ (c5D ++ (mid ++ c5Post))).take c5C2.length) = _
  rw [List.take_left]
  decide

/-- The backend section of the canonical C5 block is a fixed string. -/
theorem c5_backendBlock (mid : L) (hmid : ∀ c ∈ mid, descSafeChar c = true) :
    backendSectionOf (c5Block mid) =
      str "Backend — Generic Keywords (1 ред) (Bytes: 7):\nkw1 kw2" := by
  have hr1 : extractSection (c5Block mid) patBackendDash patActiveIngredients =
      str "Backend — Generic Keywords (1 ред) (Bytes: 7):\nkw1 kw2" := by
    rw [extractSection]
    simp only [findRegexIndex]
    rw [c5_scan_backendDash mid hmid]
    show (match firstMatchPos patActiveIngredients ((c5Block mid).drop
        (c5C1.length + (c5C2.length + (c5D.length + (mid.length + 1))))) with
      | none => trimJS ((c5Block mid).drop
          (c5C1.length + (c5C2.length + (c5D.length + (mid.length + 1)))))
      | some e => trimJS (((c5Block mid).drop
          (c5C1.length + (c5C2.length + (c5D.length + (mid.length + 1))))).take e)) = _
    rw [c5_drop_backend mid]
    rw [show firstMatchPos patActiveIngredients (c5F ++ c5G) = some c5F.length from by decide]
    show trimJS ((c5F ++ c5G).take c5F.length) = _
    rw [List.take_left]
    decide
  rw [backendSectionOf]
  rw [hr1]
  rw [if_pos (by decide)]

/-- The description section of the canonical C5 block. -/
theorem c5_descBlock (mid : L) (hmid : ∀ c ∈ mid, descSafeChar c = true) :
    descBlockOf (c5Block mid) = trimJS (c5D ++ (mid ++ ['\n'])) := by
  rw [descBlockOf, extractSection]
  simp only [findRegexIndex]
  rw [c5_scan_prodDesc mid]
  show (match firstMatchPos patBackendWord ((c5Block mid).drop (c5C1.length + c5C2.length)) with
    | none => trimJS ((c5Block mid).drop (c5C1.length + c5C2.length))
    | some e => trimJS (((c5Block mid).drop (c5C1.length + c5C2.length)).take e)) = _
  have hdrop : (c5Block mid).drop (c5C1.length + c5C2.length) = c5D ++ (mid ++ c5Post) := by
    rw [c5Block, List.drop_append, List.drop_left]
  rw [hdrop]
  have hscan : firstMatchPos patBackendWord (c5D ++ (mid ++ c5Post)) =
      some (c5D.length + (mid.length + 1)) := by
    rw [firstMatchPos_append_fail c5D (by decide),
      firstMatchPos_append_safe mid (fun c hc => (descSafe_canStart (hmid c hc)).2.2.2.2.2.2.2.1)]
    rw [c5Post_decomp, firstMatchPos_append_fail ['\n'] (by decide)]
    rw [firstMatchPos_of_pmatchB (pmatchB_append_done _
      (show pmatch3 patBackendWord c5F = M3.done (str " — Generic Keywords (1 ред) (Bytes: 7):\nkw1 kw2\n") from by decide))]
    show some (((0 + 1) + mid.length) + c5D.length) = _
    rw [Option.some.injEq]
    omega
  rw [hscan]
  show trimJS ((c5D ++ (mid ++ c5Post)).take (c5D.length + (mid.length + 1))) = _
  rw [List.take_append, List.take_append]
  rw [show c5Post.take 1 = ['\n'] from by decide]

/-- The canonical C5 block always has a description section. -/
theorem c5_descBlock_ne (mid : L) (hmid : ∀ c ∈ mid, descSafeChar c = true) :
    descBlockOf (c5Block mid) ≠ [] := by
  rw [c5_descBlock mid hmid]
  rw [show c5D = 'P' :: str "roduct Description (Chars: 20)\n" from rfl, List.cons_append]
  exact trimJS_cons_ne_nil (by decide) _

/-- Splicing a new description into the canonical C5 block only rewrites the
description body (and normalizes the blank line after it). -/
theorem c5_replaceDesc (mid nd : L) (hmid : ∀ c ∈ mid, descSafeChar c = true) :
    replaceDescriptionInBlock (c5Block mid) nd = c5Block (trimJS nd ++ ['\n']) := by
  have hdrop : (c5Block mid).drop (c5C1.length + c5C2.length) = c5D ++ (mid ++ c5Post) := by
    rw [c5Block, List.drop_append, List.drop_left]
  rw [replaceDescriptionInBlock]
  simp only [findRegexIndex]
  rw [c5_scan_prodDesc mid, c5_scan_backendWord mid hmid]
  show (if c5C1.length + (c5C2.length + (c5D.length + (mid.length + 1))) ≤
        c5C1.length + c5C2.length then c5Block mid
    else trimJS (trimEndJS ((c5Block mid).take (c5C1.length + c5C2.length)) ++ '\n' ::
      (match indexOfChFrom (c5Block mid) '\n' (c5C1.length + c5C2.length) with
       | some fl => trimJS (((c5Block mid).take fl).drop (c5C1.length + c5C2.length))
       | none => str "Product Description (Chars: 0)") ++ '\n' :: trimJS nd
      ++ '\n' :: '\n' :: trimStartJS ((c5Block mid).drop
        (c5C1.length + (c5C2.length + (c5D.length + (mid.length + 1))))))) =
    c5Block (trimJS nd ++ ['\n'])
  rw [if_neg (by omega)]
  have hidx : indexOfChFrom (c5Block mid) '\n' (c5C1.length + c5C2.length) =
      some (31 + (c5C1.length + c5C2.length)) := by
    rw [indexOfChFrom_eq, hdrop]
    rw [indexOfSub_append c5D 31 (by decide) (by decide) (mid ++ c5Post)]
    rfl
  rw [hidx]
  show trimJS (trimEndJS ((c5Block mid).take (c5C1.length + c5C2.length)) ++ '\n' ::
      trimJS (((c5Block mid).take (31 + (c5C1.length + c5C2.length))).drop
        (c5C1.length + c5C2.length)) ++ '\n' :: trimJS nd
      ++ '\n' :: '\n' :: trimStartJS ((c5Block mid).drop
        (c5C1.length + (c5C2.length + (c5D.length + (mid.length + 1)))))) =
    c5Block (trimJS nd ++ ['\n'])
  have htake1 : (c5Block mid).take (c5C1.length + c5C2.length) = c5C1 ++ c5C2 := by
    rw [c5Block, List.take_append, List.take_left]
  have htake2 : (c5Block mid).take (31 + (c5C1.length + c5C2.length)) =
      c5C1 ++ (c5C2 ++ c5Dline) := by
    rw [show 31 + (c5C1.length + c5C2.length) = c5C1.length + (c5C2.length + 31) from by omega]
    rw [c5Block, List.take_append, List.take_append]
    rw [show (c5D ++ (mid ++ c5Post)).take 31 = c5Dline from by
      rw [List.take_append_of_le_length (by decide)]
      decide]
  rw [htake1, htake2, c5_drop_backend mid]
  have hdrop2 : (c5C1 ++ (c5C2 ++ c5Dline)).drop (c5C1.length + c5C2.length) = c5Dline := by
    rw [List.drop_append, List.drop_left]
  rw [hdrop2]
  rw [show trimJS c5Dline = c5Dline from by decide]
  rw [show trimEndJS (c5C1 ++ c5C2) =
    str "Titles (2 варианта):\n1. Lumina Serum\nBullet Points (5):\n• **La**: great serum" from by decide]
  rw [trimStartJS_append_of (by decide) (by decide)]
  have hwrap : trimJS
      (str "Titles (2 варианта):\n1. Lumina Serum\nBullet Points (5):\n• **La**: great serum" ++ '\n' ::
        c5Dline ++ '\n' :: trimJS nd ++ '\n' :: '\n' :: (c5F ++ c5G)) =
      str "Titles (2 варианта):\n1. Lumina Serum\nBullet Points (5):\n• **La**: great serum" ++ '\n' ::
        c5Dline ++ '\n' :: trimJS nd ++ '\n' :: '\n' :: (c5F ++ c5G) := by
    rw [show str "Titles (2 варианта):\n1. Lumina Serum\nBullet Points (5):\n• **La**: great serum" ++ '\n' ::
        c5Dline ++ '\n' :: trimJS nd ++ '\n' :: '\n' :: (c5F ++ c5G) =
      str "Titles (2 варианта):\n1. Lumina Serum\nBullet Points (5):\n• **La**: great serum" ++
        (('\n' :: c5Dline ++ '\n' :: trimJS nd ++ '\n' :: ['\n'] ++ c5F) ++ c5G) from by
      simp [List.append_assoc]]
    exact trimJS_wrap _ (by decide) (by decide) (by decide) (by decide)
  rw [hwrap, c5Block]
  rw [show c5C1 ++ (c5C2 ++ (c5D ++ ((trimJS nd ++ ['\n']) ++ c5Post))) =
    (c5C1 ++ c5C2) ++ (c5D ++ (trimJS nd ++ (['\n'] ++ c5Post))) from by simp [List.append_assoc]]
  rw [show c5C1 ++ c5C2 =
    str "Titles (2 варианта):\n1. Lumina Serum\nBullet Points (5):\n• **La**: great serum" ++ ['\n'] from by decide]
  rw [show c5D = c5Dline ++ ['\n'] from by decide]
  rw [c5Post_decomp]
  simp [List.append_assoc]


/-- The description-repair loop on the canonical one-block list performs
exactly one in-range splice. -/
theorem c5_loop (r : L) (cfg : Cfg) (mid : L) (hmid : ∀ c ∈ mid, descSafeChar c = true)
    (hrt : trimJS r = r) (hmin : cfg.DESC_MIN ≤ lenL r) (hmax : lenL r ≤ cfg.DESC_MAX) :
    fixDescriptionLoop (callsRepl r) cfg [⟨[], c5Block mid⟩] 0 =
      .ok ([⟨[], c5Block (r ++ ['\n'])⟩], 1) := by
  simp only [fixDescriptionLoop]
  rw [if_neg (c5_descBlock_ne mid hmid)]
  rw [show callOpenAI (callsRepl r) 0 = Except.ok ((⟨r, []⟩ : GenData), 1) from rfl]
  simp only [bind, Bind.bind, Except.bind]
  rw [show extractText (⟨r, []⟩ : GenData) = trimJS r from rfl, hrt, hrt]
  rw [if_neg (by
    intro hc
    rw [Bool.or_eq_true, decide_eq_true_iff, decide_eq_true_iff] at hc
    omega)]
  rw [c5_replaceDesc mid r hmid, hrt]
  simp only [fixDescriptionLoop, bind, Bind.bind, Except.bind, pure, Pure.pure, Except.pure]

/-- No loose VARIANT marker occurs in the canonical C5 phase-2 text. -/
theorem c5_noVariantLoose (mid : L) (hmid : ∀ c ∈ mid, descSafeChar c = true) :
    noMatchAt patVariantLoose (c5B ++ (c5C1 ++ (c5C2 ++ (c5D ++ (mid ++ c5Post))))) := by
  refine noMatchAt_append_fail c5B (by decide) _
    (noMatchAt_append_fail c5C1 (by decide) _
      (noMatchAt_append_fail c5C2 (by decide) _
        (noMatchAt_append_fail c5D (by decide) _
          (noMatchAt_append_safe mid ?_ _
            (noMatchAt_of_failsAll (by decide) (by decide))))))
  intro c hc
  exact (descSafe_canStart (hmid c hc)).2.2.1

/-- The first line of the canonical C5 phase-2 text is its header. -/
theorem c5_splitB (x : L) : splitLines (c5B ++ x) = c5Bline :: splitLines x := by
  rw [show c5B ++ x = c5Bline ++ '\n' :: x from by
    rw [show c5B = c5Bline ++ ['\n'] from by decide]
    simp [List.append_assoc]]
  exact splitCh_append_cons '\n' c5Bline (by decide) x

/-- Skip a region where every position refutes the prefix test. -/
theorem indexOfSub_skip {pat : L} :
    ∀ (a z : L), (∀ p, p < a.length → pat.isPrefixOf (a.drop p ++ z) = false) →
      indexOfSub (a ++ z) pat = (indexOfSub z pat).map (· + a.length) := by
  intro a
  induction a with
  | nil =>
    intro z _
    show indexOfSub z pat = (indexOfSub z pat).map (· + 0)
    cases indexOfSub z pat <;> simp
  | cons c a2 ih =>
    intro z h
    have h0 : pat.isPrefixOf ((c :: a2) ++ z) = false := by
      have := h 0 (by simp)
      simpa using this
    rw [List.cons_append, indexOfSub_cons_false (by rw [← List.cons_append]; exact h0)]
    rw [ih z (fun p hp => by
      have := h (p + 1) (by simpa using Nat.succ_lt_succ hp)
      simpa using this)]
    cases indexOfSub z pat with
    | none => rfl
    | some m =>
      show some (m + a2.length + 1) = some (m + (c :: a2).length)
      rw [Option.some.injEq, List.length_cons]
      omega

/-- The phase-2 text occurs in the canonical C5 document exactly at index 7. -/
theorem c5_indexOfSub (old : L) :
    indexOfSub (docC5 old) (c5B ++ c5Block old) = some 7 := by
  have hlen : 6 ≤ (c5B ++ c5Block old).length := by
    rw [List.length_append]
    have : c5B.length = 17 := rfl
    omega
  have htake6 : (c5B ++ c5Block old).take 6 = str "ФАЗА 2" := by
    rw [List.take_append_of_le_length (by decide)]
    decide
  have htake1 : (c5B ++ c5Block old).take 1 = str "Ф" := by
    rw [List.take_append_of_le_length (by decide)]
    decide
  rw [docC5_decomp old]
  rw [show c5B ++ (c5C1 ++ (c5C2 ++ (c5D ++ (old ++ c5Post)))) = c5B ++ c5Block old from by
    rw [c5Block]]
  rw [indexOfSub_skip c5A (c5B ++ c5Block old) ?hfail]
  · rw [indexOfSub_at_head (List.isPrefixOf_iff_prefix.mpr (List.prefix_refl _))]
    rfl
  case hfail =>
    intro p hp
    rw [show c5A.length = 7 from by decide] at hp
    interval_cases p
    · exact isPrefixOf_false_of_take_ne 6 (by omega) (by
        rw [htake6, show (c5A.drop 0 ++ (c5B ++ c5Block old)).take 6 = str "ФАЗА 1" from by
          rw [List.take_append_of_le_length (by decide)]
          decide]
        decide)
    · exact isPrefixOf_false_of_take_ne 1 (by omega) (by
        rw [htake1, show (c5A.drop 1 ++ (c5B ++ c5Block old)).take 1 = str "А" from by
          rw [List.take_append_of_le_length (by decide)]
          decide]
        decide)
    · exact isPrefixOf_false_of_take_ne 1 (by omega) (by
        rw [htake1, show (c5A.drop 2 ++ (c5B ++ c5Block old)).take 1 = str "З" from by
          rw [List.take_append_of_le_length (by decide)]
          decide]
        decide)
    · exact isPrefixOf_false_of_take_ne 1 (by omega) (by
        rw [htake1, show (c5A.drop 3 ++ (c5B ++ c5Block old)).take 1 = str "А" from by
          rw [List.take_append_of_le_length (by decide)]
          decide]
        decide)
    · exact isPrefixOf_false_of_take_ne 1 (by omega) (by
        rw [htake1, show (c5A.drop 4 ++ (c5B ++ c5Block old)).take 1 = str " " from by
          rw [List.take_append_of_le_length (by decide)]
          decide]
        decide)
    · exact isPrefixOf_false_of_take_ne 1 (by omega) (by
        rw [htake1, show (c5A.drop 5 ++ (c5B ++ c5Block old)).take 1 = str "1" from by
          rw [List.take_append_of_le_length (by decide)]
          decide]
        decide)
    · exact isPrefixOf_false_of_take_ne 1 (by omega) (by
        rw [htake1, show (c5A.drop 6 ++ (c5B ++ c5Block old)).take 1 = str "\n" from by
          rw [List.take_append_of_le_length (by decide)]
          decide]
        decide)

/-- Trim fixes the canonical phase-2 text with an arbitrary block body. -/
theorem c5_trim_phase2 (rb : L) :
    trimJS (c5B ++ c5Block rb) = c5B ++ c5Block rb := by
  rw [c5Block, c5Post_decomp]
  rw [show c5B ++ (c5C1 ++ (c5C2 ++ (c5D ++ (rb ++ (['\n'] ++ (c5F ++ c5G)))))) =
      c5B ++ ((c5C1 ++ (c5C2 ++ (c5D ++ (rb ++ (['\n'] ++ c5F))))) ++ c5G) from by
    simp [List.append_assoc]]
  exact trimJS_wrap _ (by decide) (by decide) (by decide) (by decide)

/-- Rebuilding the canonical C5 document from one repaired block keeps the
phase-1 line and the header and splices the block body. -/
theorem c5_rebuild (old rb : L) (hold : ∀ c ∈ old, descSafeChar c = true) :
    rebuildPhase2 (docC5 old) [⟨[], c5Block rb⟩] = c5A ++ (c5B ++ c5Block rb) := by
  have hfold : c5B ++ (c5C1 ++ (c5C2 ++ (c5D ++ (old ++ c5Post)))) = c5B ++ c5Block old := by
    rw [c5Block]
  have hne : c5B ++ c5Block old ≠ [] := by
    rw [show c5B ++ c5Block old = 'Ф' :: (str "АЗА 2 · ЛИСТИНГ\n" ++ c5Block old) from by
      rw [show c5B = 'Ф' :: str "АЗА 2 · ЛИСТИНГ\n" from rfl, List.cons_append]]
    exact List.cons_ne_nil _ _
  have hheader : extractPhase2Header (c5B ++ c5Block old) = c5Bline := by
    rw [extractPhase2Header, c5_splitB]
    rw [show (c5Bline :: splitLines (c5Block old)).headD [] = c5Bline from rfl]
    rw [show trimJS c5Bline = c5Bline from by decide]
    rw [if_pos (by decide)]
  have hvar : testRe patVariantLoose (c5B ++ c5Block old) = false := by
    rw [testRe]
    rw [noMatchAt_firstMatchPos _ (by
      rw [show c5B ++ c5Block old = c5B ++ (c5C1 ++ (c5C2 ++ (c5D ++ (old ++ c5Post)))) from by
        rw [c5Block]]
      exact c5_noVariantLoose old hold)]
    rfl
  have htake : (docC5 old).take 7 = c5A := by
    rw [docC5_decomp old, show (7 : Nat) = c5A.length from by decide, List.take_left]
  rw [rebuildPhase2]
  rw [c5_extractPhase2 old, hfold]
  rw [if_neg hne]
  rw [c5_indexOfSub old]
  simp only []
  rw [htake, hheader, hvar]
  rw [show trimEndJS c5A = str "ФАЗА 1" from by decide]
  rw [if_pos (show c5Bline ≠ [] from by decide)]
  rw [if_neg (show ¬(false = true) from by simp)]
  rw [show ([(⟨[], c5Block rb⟩ : VB)].headD ⟨[], []⟩).text = c5Block rb from rfl]
  rw [show joinLines [c5Bline, c5Block rb] = (c5Bline ++ ['\n']) ++ c5Block rb from rfl]
  rw [show c5Bline ++ ['\n'] = c5B from by decide]
  rw [c5_trim_phase2 rb]
  rw [c5Block, c5Post_decomp]
  rw [show str "ФАЗА 1" ++ '\n' :: (c5B ++ (c5C1 ++ (c5C2 ++ (c5D ++ (rb ++ (['\n'] ++ (c5F ++ c5G))))))) =
      str "ФАЗА 1" ++ ((('\n' :: c5B) ++ (c5C1 ++ (c5C2 ++ (c5D ++ (rb ++ (['\n'] ++ c5F)))))) ++ c5G) from by
    simp [List.append_assoc]]
  rw [trimJS_wrap _ (by decide) (by decide) (by decide) (by decide)]
  rw [show c5A = str "ФАЗА 1" ++ ['\n'] from by decide]
  simp [List.append_assoc]


/-- A trim-fixed string is fixed by both one-sided trims. -/
theorem trim_parts {r : L} (h : trimJS r = r) : trimStartJS r = r ∧ trimEndJS r = r := by
  have h1 : (trimEndJS (trimStartJS r)).length ≤ (trimStartJS r).length := by
    rw [trimEndJS]
    rw [List.length_reverse]
    calc (List.dropWhile isJsSpace (trimStartJS r).reverse).length
        ≤ (trimStartJS r).reverse.length := (List.dropWhile_sublist _).length_le
      _ = (trimStartJS r).length := List.length_reverse _
  have h2 : (trimStartJS r).length ≤ r.length := (List.dropWhile_sublist _).length_le
  rw [trimJS] at h
  have hlen : (trimStartJS r).length = r.length := by
    have := congrArg List.length h
    omega
  have hstart : trimStartJS r = r := by
    have hsub : trimStartJS r <:+ r := List.dropWhile_suffix _
    exact hsub.sublist.eq_of_length hlen
  refine ⟨hstart, ?_⟩
  rw [hstart] at h
  exact h

/-- The description repair of the canonical C5 document splices the in-range
replacement and renumbers nothing else. -/
theorem c5_fixDesc (old r : L) (cfg : Cfg)
    (hold : ∀ c ∈ old, descSafeChar c = true)
    (hrt : trimJS r = r)
    (hmin : cfg.DESC_MIN ≤ lenL r) (hmax : lenL r ≤ cfg.DESC_MAX) :
    fixDescriptionAllVariants (callsRepl r) cfg (docC5 old) 1 0 =
      .ok (c5A ++ (c5B ++ c5Block (r ++ ['\n'])), 1) := by
  have hfold : c5B ++ (c5C1 ++ (c5C2 ++ (c5D ++ (old ++ c5Post)))) = c5B ++ c5Block old := by
    rw [c5Block]
  have hne : c5B ++ c5Block old ≠ [] := by
    rw [show c5B ++ c5Block old = 'Ф' :: (str "АЗА 2 · ЛИСТИНГ\n" ++ c5Block old) from by
      rw [show c5B = 'Ф' :: str "АЗА 2 · ЛИСТИНГ\n" from rfl, List.cons_append]]
    exact List.cons_ne_nil _ _
  have hvb : splitVariantsPhase2 (c5B ++ c5Block old) 1 = [⟨[], c5Block old⟩] := by
    have h := c5_vBlocks old hold
    rw [c5_extractPhase2 old, hfold] at h
    exact h
  rw [fixDescriptionAllVariants]
  rw [c5_extractPhase2 old, hfold]
  rw [if_neg hne]
  rw [hvb]
  show (do
    let p ← fixDescriptionLoop (callsRepl r) cfg [⟨[], c5Block old⟩] 0
    match p with
    | (fixedBlocks, k2) => pure (rebuildPhase2 (docC5 old) fixedBlocks, k2)) =
    Except.ok ((c5A ++ (c5B ++ c5Block (r ++ ['\n'])) : L), 1)
  rw [c5_loop r cfg old hold hrt hmin hmax]
  simp only [bind, Bind.bind, Except.bind, pure, Pure.pure, Except.pure]
  rw [c5_rebuild old (r ++ ['\n']) hold]

/-- C5 frame property for the canonical document: the block seen by the
validator afterwards is the canonical block with the new body. -/
theorem c5_blockOf (mid : L) (hmid : ∀ c ∈ mid, descSafeChar c = true) :
    blockOf (docC5 mid) = c5Block mid := by
  rw [blockOf, c5_vBlocks mid hmid]
  rfl

/-- C5 (amended): on a canonical single-variant document whose description
body and replacement use splice-safe characters, the targeted
description-only repair with an in-range trimmed replacement rewrites only
the description body: the final document is the same skeleton around the
replacement, the titles, bullets and backend sections are byte-identical to
the pre-repair document, and the description section now carries the
replacement.  (The counterexample shows this fails for general documents.) -/
theorem C5_description_splice_frame (old r : L) (cfg : Cfg)
    (hold : ∀ c ∈ old, descSafeChar c = true)
    (hr : ∀ c ∈ r, descSafeChar c = true)
    (hrne : r ≠ [])
    (hrt : trimJS r = r)
    (hmin : cfg.DESC_MIN ≤ lenL r) (hmax : lenL r ≤ cfg.DESC_MAX) :
    fixDescriptionAllVariants (callsRepl r) cfg (docC5 old) 1 0 =
      .ok (c5Pre ++ r ++ '\n' :: c5Post, 1) ∧
    titlesBlockOf (blockOf (c5Pre ++ r ++ '\n' :: c5Post)) =
      titlesBlockOf (blockOf (docC5 old)) ∧
    bulletsBlockOf (blockOf (c5Pre ++ r ++ '\n' :: c5Post)) =
      bulletsBlockOf (blockOf (docC5 old)) ∧
    backendSectionOf (blockOf (c5Pre ++ r ++ '\n' :: c5Post)) =
      backendSectionOf (blockOf (docC5 old)) ∧
    stripDescriptionHeading (descBlockOf (blockOf (c5Pre ++ r ++ '\n' :: c5Post))) = r := by
  have hmid2 : ∀ c ∈ r ++ ['\n'], descSafeChar c = true := by
    intro c hc
    rcases List.mem_append.mp hc with h | h
    · exact hr c h
    · rw [List.mem_singleton] at h
      subst h
      decide
  have hdoc2 : c5Pre ++ r ++ '\n' :: c5Post = docC5 (r ++ ['\n']) := by
    rw [docC5]
    simp [List.append_assoc]
  have hb2 : blockOf (c5Pre ++ r ++ '\n' :: c5Post) = c5Block (r ++ ['\n']) := by
    rw [hdoc2, c5_blockOf _ hmid2]
  have hb1 : blockOf (docC5 old) = c5Block old := c5_blockOf old hold
  have hte : trimEndJS r = r := (trim_parts hrt).2
  refine ⟨?_, ?_, ?_, ?_, ?_⟩
  · rw [c5_fixDesc old r cfg hold hrt hmin hmax, hdoc2, docC5_decomp]
    rw [show c5C1 ++ (c5C2 ++ (c5D ++ ((r ++ ['\n']) ++ c5Post))) = c5Block (r ++ ['\n']) from by
      rw [c5Block]]
  · rw [hb2, hb1, c5_titlesBlock, c5_titlesBlock]
  · rw [hb2, hb1, c5_bulletsBlock, c5_bulletsBlock]
  · rw [hb2, hb1, c5_backendBlock _ hmid2, c5_backendBlock old hold]
  · rw [hb2, c5_descBlock _ hmid2]
    have htrim : trimJS (c5D ++ ((r ++ ['\n']) ++ ['\n'])) = c5D ++ r := by
      rw [trimJS]
      rw [show c5D ++ ((r ++ ['\n']) ++ ['\n']) = c5D ++ (r ++ ['\n', '\n']) from by
        simp [List.append_assoc]]
      rw [trimStartJS_append_of (by decide) (by decide)]
      rw [show c5D ++ (r ++ ['\n', '\n']) = (c5D ++ r) ++ ['\n', '\n'] from by
        simp [List.append_assoc]]
      rw [trimEndJS_append_ws (by decide)]
      rw [trimEndJS_append (by rw [hte]; exact hrne), hte]
    rw [htrim]
    rw [stripDescriptionHeading]
    rw [show splitLines (c5D ++ r) = c5Dline :: splitLines r from by
      rw [show c5D ++ r = c5Dline ++ '\n' :: r from by
        rw [show c5D = c5Dline ++ ['\n'] from by decide]
        simp [List.append_assoc]]
      exact splitCh_append_cons '\n' c5Dline (by decide) r]
    simp only []
    rw [if_pos (show testRe patProdDesc c5Dline = true from by decide)]
    rw [joinLines_splitLines, hrt]

/-- Counterexample to C5 as stated: in docC5bad the text "Product Description"
occurs inside a title, the splice anchors there, and the bullets section is
destroyed although the replacement is in range. -/
theorem C5_counterexample :
    cfgS.DESC_MIN ≤ lenL (trimJS (str "new fresh desc")) ∧
    lenL (trimJS (str "new fresh desc")) ≤ cfgS.DESC_MAX ∧
    fixDescriptionAllVariants (callsRepl (str "new fresh desc")) cfgS docC5bad 1 0 =
      .ok (docC5badFixed, 1) ∧
    bulletsBlockOf (blockOf docC5badFixed) = [] ∧
    bulletsBlockOf (blockOf docC5bad) = str "Bullet Points (5):\n• **La**: great serum" := by
  refine ⟨by decide, by decide, by decide, by decide, by decide⟩

/-- C5 witness: a concrete safe document and replacement under cfgS. -/
theorem C5_witness :
    fixDescriptionAllVariants (callsRepl (str "new fresh good desk")) cfgS
      (docC5 (str "some old words here")) 1 0 =
      .ok (c5Pre ++ str "new fresh good desk" ++ '\n' :: c5Post, 1) ∧
    titlesBlockOf (blockOf (c5Pre ++ str "new fresh good desk" ++ '\n' :: c5Post)) =
      titlesBlockOf (blockOf (docC5 (str "some old words here"))) ∧
    stripDescriptionHeading (descBlockOf (blockOf
      (c5Pre ++ str "new fresh good desk" ++ '\n' :: c5Post))) = str "new fresh good desk" := by
  have h := C5_description_splice_frame (str "some old words here") (str "new fresh good desk")
    cfgS (by decide) (by decide) (by decide) (by decide) (by decide) (by decide)
  exact ⟨h.1, h.2.1, h.2.2.2.2⟩
